import Mathlib

/-!
# Verification of `wayback_extractor.py`

A shallow embedding of the core functions of the repository
`mgifford/wayback-extractor` (single source file `wayback_extractor.py`),
together with theorems settling the frozen claims about its specification.

Modelling conventions:

* Python `str` (and `bytes`, which the program only ever decodes to text or
  streams opaquely) is modelled as `List Char`, named `Str`.
* Python string comparison (`<`, `<=`) is lexicographic by code point and is
  modelled by `strLt` / `strLe`.
* `re` character class `\d`, `str.lower`, `str.strip` and friends are modelled
  on ASCII; the program only ever feeds them archive timestamps, URLs, HTTP
  header values and CSS, which are ASCII in every relevant position.
* Network I/O is modelled by explicit oracles (`Transport`, `CdxOracle`,
  `AvailOracle`): an oracle maps a request to the outcome (a response, or the
  exception `session.get` raised).  requests' header lookup is
  case-insensitive, so the two header reads of the code collapse to single
  fields of the `Response` structure; an absent header is the empty string
  (both are falsy in Python, and the code only tests truthiness before use).
* `float` quantities of the rate limiter are modelled as exact rationals.
* Time is explicit: `RateLimiter.take` receives the elapsed monotonic time
  since the previous call as an argument.
-/

namespace Wayback

/-- Python `str`, modelled as its list of characters. -/
abbrev Str := List Char

/-- Coerce a Lean string literal to the `Str` model. -/
def pys (s : String) : Str := s.data

/-- Python string `<` : lexicographic comparison by code point. -/
def strLt : Str → Str → Bool
  | [], [] => false
  | [], _ :: _ => true
  | _ :: _, [] => false
  | a :: as, b :: bs => if a < b then true else if b < a then false else strLt as bs

/-- Python string `<=` (total order, so `a <= b` iff `not (b < a)`). -/
def strLe (a b : Str) : Bool := !(strLt b a)

/-- Python `s.startswith(p)`. -/
def pyStartsWith (p s : Str) : Bool := p.isPrefixOf s

/-- Python `s.endswith(p)`. -/
def pyEndsWith (p s : Str) : Bool := p.isSuffixOf s

/-- Python `needle in hay` (substring test). -/
def pyContains (needle hay : Str) : Bool :=
  match hay with
  | [] => needle.isPrefixOf ([] : Str)
  | _ :: t => needle.isPrefixOf hay || pyContains needle t

/-- Python `c in s` for a single character. -/
def pyHasChar (c : Char) (s : Str) : Bool := s.contains c

/-- ASCII lower-casing of one character (`str.lower` on the ASCII range). -/
def pyLowerChar (c : Char) : Char :=
  if 'A' ≤ c ∧ c ≤ 'Z' then Char.ofNat (c.toNat + 32) else c

/-- Python `s.lower()` (ASCII model). -/
def pyLower (s : Str) : Str := s.map pyLowerChar

/-- The six characters Python's `str.split()` / `\s` treat as whitespace (ASCII). -/
def pyIsSpace (c : Char) : Bool :=
  c = ' ' ∨ c = '\t' ∨ c = '\n' ∨ c = '\r' ∨ c = '\x0b' ∨ c = '\x0c'

/-- Python `s.strip()` (ASCII whitespace model). -/
def pyStrip (s : Str) : Str :=
  ((s.dropWhile pyIsSpace).reverse.dropWhile pyIsSpace).reverse

/-- Python `s.lstrip("/")`: drop every leading `'/'`. -/
def pyLstripSlash (s : Str) : Str := s.dropWhile (fun c => c = '/')

/-- Split at the first occurrence of `c`: Python `s.split(c, 1)` when `c` occurs. -/
def pySplit1 (c : Char) (s : Str) : Option (Str × Str) :=
  match s with
  | [] => none
  | a :: t =>
    if a = c then some ([], t)
    else match pySplit1 c t with
      | some (x, y) => some (a :: x, y)
      | none => none

/-- Python `s.split(c)[0]`: the part before the first occurrence of `c`. -/
def pyBefore (c : Char) (s : Str) : Str :=
  match pySplit1 c s with
  | some (x, _) => x
  | none => s

/-- Helper for `pySplitAll`: `acc` is the current piece, reversed. -/
def pySplitAllAux (c : Char) : Str → Str → List Str
  | [], acc => [acc.reverse]
  | a :: t, acc =>
    if a = c then acc.reverse :: pySplitAllAux c t []
    else pySplitAllAux c t (a :: acc)

/-- Python `s.split(c)` (full split on a single-character separator). -/
def pySplitAll (c : Char) (s : Str) : List Str := pySplitAllAux c s []

/-- Python `int(tok)` on a whitespace-free token: optional sign, then ASCII
digits with single underscores strictly between digits.  `none` models
`ValueError`. -/
def parseUDigits : Str → Option Nat
  | [] => none
  | l => go l true none
where
  /-- `expectDigit = true` right after the start or an underscore.  `acc` is
  `none` until the first digit has been seen. -/
  go : Str → Bool → Option Nat → Option Nat
    | [], expectDigit, acc => if expectDigit then none else acc
    | c :: t, expectDigit, acc =>
      if '0' ≤ c ∧ c ≤ '9' then
        go t false (some ((acc.getD 0) * 10 + (c.toNat - '0'.toNat)))
      else if c = '_' ∧ !expectDigit then
        go t true acc
      else none

/-- Python `int(tok)` (sign handling; `none` models `ValueError`). -/
def pyInt (t : Str) : Option Int :=
  match t with
  | '+' :: rest => (parseUDigits rest).map Int.ofNat
  | '-' :: rest => (parseUDigits rest).map (fun n => -(n : Int))
  | _ => (parseUDigits t).map Int.ofNat

/-- Python `s.split()` and `[0]`: the first maximal run of non-whitespace,
or `none` when the string is all whitespace (`IndexError` in the source,
caught by the surrounding `except`). -/
def firstWsToken (s : Str) : Option Str :=
  let s' := s.dropWhile pyIsSpace
  match s' with
  | [] => none
  | _ => some (s'.takeWhile (fun c => !pyIsSpace c))

/-- ASCII digit test (model of `re` `\d`). -/
def isAsciiDigit (c : Char) : Bool := '0' ≤ c ∧ c ≤ '9'

/-- `re.fullmatch(r"\d{14}", s)`: exactly fourteen digits. -/
def isTs14 (s : Str) : Bool := s.length = 14 ∧ s.all isAsciiDigit

/-- `to_ts_full` (source lines 72–75): return the timestamp unchanged when it
is exactly fourteen digits, else raise `ValueError` (modelled as `none`). -/
def to_ts_full (ts14 : Str) : Option Str :=
  if isTs14 ts14 then some ts14 else none

/-- `ensure_local_path` (source lines 95–100): map a URL path to a local
filesystem path, defaulting to `index.html` for directory-like paths,
then cutting at the first `'?'` and first `'#'` and dropping every leading
`'/'` (`str.lstrip("/")` removes *all* leading slashes). -/
def ensure_local_path (path : Str) : Str :=
  let path1 := if path = [] ∨ pyEndsWith (pys "/") path
    then (if path = [] then pys "/" else path) ++ pys "index.html"
    else path
  let path2 := pyBefore '#' (pyBefore '?' path1)
  pyLstripSlash path2

/-! ## `urllib.parse` (CPython 3.8) — the subset the program uses

The program calls `urlparse` and `urljoin`.  `urlsplit`'s IPv6 check can raise
`ValueError` on a netloc with mismatched brackets; the embedding is total and
`urlsplitOk` captures the non-raising condition, assumed as a hypothesis by
the theorems whose Python counterpart would otherwise propagate the error.
`allow_fragments` is always `True` at every call site and is fixed to true. -/

/-- Characters allowed in a URL scheme (`urllib.parse.scheme_chars`). -/
def scheme_chars : Str :=
  pys "abcdefghijklmnopqrstuvwxyzABCDEFGHIJKLMNOPQRSTUVWXYZ0123456789+-."

/-- The scheme-splitting step of `urlsplit(url, scheme0)`: returns
`(scheme, rest)`.  Mirrors CPython 3.8: a scheme is recognised when a first
colon has a nonempty candidate before it that is either literally `"http"`
(fast path) or consists of `scheme_chars` with a remainder that is empty or
not all digits (the port-number guard). -/
def schemeSplit (url : Str) (scheme0 : Str) : Str × Str :=
  match pySplit1 ':' url with
  | some (before, after) =>
    if before ≠ [] then
      if before = pys "http" then (pys "http", after)
      else if before.all (fun c => scheme_chars.contains c) &&
              (after.isEmpty || after.any (fun c => !isAsciiDigit c)) then
        (pyLower before, after)
      else (scheme0, url)
    else (scheme0, url)
  | none => (scheme0, url)

/-- `_splitnetloc(url, 2)` applied to the text after the leading `"//"`:
the netloc runs to the first of `/`, `?`, `#`. -/
def splitnetloc (s : Str) : Str × Str :=
  (s.takeWhile (fun c => c ≠ '/' ∧ c ≠ '?' ∧ c ≠ '#'),
   s.dropWhile (fun c => c ≠ '/' ∧ c ≠ '?' ∧ c ≠ '#'))

/-- Result of `urlsplit`. -/
structure SplitResult where
  scheme : Str
  netloc : Str
  path : Str
  query : Str
  fragment : Str
deriving DecidableEq

/-- `urllib.parse.urlsplit(url, scheme0)` with `allow_fragments=True`
(total model; see `urlsplitOk`). -/
def urlsplit (url : Str) (scheme0 : Str) : SplitResult :=
  let (scheme, rest) := schemeSplit url scheme0
  let (netloc, rest) :=
    if pyStartsWith (pys "//") rest then splitnetloc (rest.drop 2)
    else ([], rest)
  let (rest, fragment) :=
    match pySplit1 '#' rest with
    | some (a, b) => (a, b)
    | none => (rest, [])
  let (path, query) :=
    match pySplit1 '?' rest with
    | some (a, b) => (a, b)
    | none => (rest, [])
  ⟨scheme, netloc, path, query, fragment⟩

/-- The condition under which `urlsplit` does *not* raise the
"Invalid IPv6 URL" `ValueError`: when a netloc is present, `[` and `]`
occur in it together or not at all. -/
def urlsplitOk (url : Str) : Bool :=
  let (_, rest) := schemeSplit url []
  if pyStartsWith (pys "//") rest then
    let netloc := (splitnetloc (rest.drop 2)).1
    (netloc.contains '[') = (netloc.contains ']')
  else true

/-- `_splitparams(url)`: split `;params` off the last path segment. -/
def splitparams (url : Str) : Str × Str :=
  if url.contains '/' then
    -- i = url.find(';', url.rfind('/')): first ';' in the last segment
    let revSegIdx := (url.reverse.takeWhile (fun c => c ≠ '/')).reverse
    let pre := url.take (url.length - revSegIdx.length)
    match pySplit1 ';' revSegIdx with
    | some (a, b) => (pre ++ a, b)
    | none => (url, [])
  else
    match pySplit1 ';' url with
    | some (a, b) => (a, b)
    | none => (url, [])

/-- Result of `urlparse`. -/
structure ParseResult where
  scheme : Str
  netloc : Str
  path : Str
  params : Str
  query : Str
  fragment : Str
deriving DecidableEq

/-- `urllib.parse.urlparse(url, scheme0)` (total model; see `urlsplitOk`). -/
def urlparse (url : Str) (scheme0 : Str) : ParseResult :=
  let s := urlsplit url scheme0
  let (path, params) :=
    if s.path.contains ';' then splitparams s.path else (s.path, [])
  ⟨s.scheme, s.netloc, path, params, s.query, s.fragment⟩

/-- `urllib.parse.uses_relative` (CPython 3.8). -/
def uses_relative : List Str :=
  [pys "", pys "ftp", pys "http", pys "gopher", pys "nntp", pys "imap",
   pys "wais", pys "file", pys "https", pys "shttp", pys "mms",
   pys "prospero", pys "rtsp", pys "rtspu", pys "sftp", pys "svn",
   pys "svn+ssh", pys "ws", pys "wss"]

/-- `urllib.parse.uses_netloc` (CPython 3.8). -/
def uses_netloc : List Str :=
  [pys "", pys "ftp", pys "http", pys "gopher", pys "nntp", pys "telnet",
   pys "imap", pys "wais", pys "file", pys "mms", pys "https", pys "shttp",
   pys "snews", pys "prospero", pys "rtsp", pys "rtspu", pys "rsync",
   pys "svn", pys "svn+ssh", pys "sftp", pys "nfs", pys "git",
   pys "git+ssh", pys "ws", pys "wss"]

/-- `urllib.parse.urlunsplit`. -/
def urlunsplit (scheme netloc url query fragment : Str) : Str :=
  let url :=
    if netloc ≠ [] ∨ (url ≠ [] ∧ url.take 2 = pys "//") then
      pys "//" ++ netloc ++
        (if url ≠ [] ∧ url.take 1 ≠ pys "/" then '/' :: url else url)
    else url
  let url := if scheme ≠ [] then scheme ++ ':' :: url else url
  let url := if query ≠ [] then url ++ '?' :: query else url
  if fragment ≠ [] then url ++ '#' :: fragment else url

/-- `urllib.parse.urlunparse`. -/
def urlunparse (scheme netloc path params query fragment : Str) : Str :=
  urlunsplit scheme netloc
    (if params ≠ [] then path ++ ';' :: params else path) query fragment

/-- The `segments[1:-1] = filter(None, segments[1:-1])` step of `urljoin`:
drop empty strings from all but the first and last position. -/
def filterMiddleEmpties (segs : List Str) : List Str :=
  match segs with
  | [] => []
  | [a] => [a]
  | a :: rest =>
    a :: (rest.dropLast.filter (fun s => s ≠ [])) ++
      (match rest.getLast? with | some l => [l] | none => [])

/-- The dot-segment resolution loop of `urljoin`: `'..'` pops (ignoring
underflow), `'.'` is skipped, everything else (including `''`) is appended. -/
def resolveDots (segs : List Str) : List Str :=
  go segs []
where
  go : List Str → List Str → List Str
    | [], acc => acc.reverse
    | s :: t, acc =>
      if s = pys ".." then go t acc.tail
      else if s = pys "." then go t acc
      else go t (s :: acc)

/-- `urllib.parse.urljoin(base, url)` (CPython 3.8, total model). -/
def urljoin (base url : Str) : Str :=
  if base = [] then url
  else if url = [] then base
  else
    let b := urlparse base []
    let r := urlparse url b.scheme
    if r.scheme ≠ b.scheme ∨ ¬ r.scheme ∈ uses_relative then url
    else if r.scheme ∈ uses_netloc ∧ r.netloc ≠ [] then
      urlunparse r.scheme r.netloc r.path r.params r.query r.fragment
    else
      let netloc := if r.scheme ∈ uses_netloc then b.netloc else r.netloc
      if r.path = [] ∧ r.params = [] then
        let query := if r.query = [] then b.query else r.query
        urlunparse r.scheme netloc b.path b.params query r.fragment
      else
        let base_parts := pySplitAll '/' b.path
        let base_parts :=
          if base_parts.getLast? ≠ some ([] : Str) then base_parts.dropLast
          else base_parts
        let segments :=
          if r.path.take 1 = pys "/" then pySplitAll '/' r.path
          else filterMiddleEmpties (base_parts ++ pySplitAll '/' r.path)
        let resolved := resolveDots segments
        let resolved :=
          if segments.getLast? = some (pys ".") ∨
             segments.getLast? = some (pys "..")
          then resolved ++ [([] : Str)] else resolved
        let joined := (resolved.intersperse (pys "/")).flatten
        urlunparse r.scheme netloc
          (if joined = [] then pys "/" else joined) r.params r.query r.fragment

/-- `is_same_site` (source lines 103–105): the URL's host equals the root
host, or is a subdomain of it. -/
def is_same_site (url : Str) (root_host : Str) : Bool :=
  let h := pyLower (urlparse url []).netloc
  h = root_host ∨ pyEndsWith ('.' :: root_host) h

/-- `normalize_url` (source lines 353–365): optionally strip the query
(and params/fragment) by rebuilding `scheme://netloc path`.  The
`try/except` makes the function total even where `urlparse` would raise. -/
def normalize_url (url : Str) (ignore_query_params : Bool) : Str :=
  if url = [] then url
  else if ignore_query_params then
    if urlsplitOk url then
      let parsed := urlparse url []
      parsed.scheme ++ pys "://" ++ parsed.netloc ++ parsed.path
    else url
  else url

/-! ## `posixpath` — `dirname`, `relpath` and path normalization

`os.path.relpath(path, start)` makes both arguments absolute against the
process working directory (`abspath = normpath(join(cwd, p))`), splits them
into components, removes the common prefix and prepends `..` entries.  The
working directory is modelled as an explicit list of components `cwd`
(absolute, already normalized: no empty, `"."` or `".."` entries — which is
an invariant of `os.getcwd()`). -/

/-- `os.path.dirname` (posix): everything before the last `'/'`, with
trailing slashes of the head stripped unless the head is all slashes. -/
def dirname (p : Str) : Str :=
  if p.contains '/' then
    let tail := (p.reverse.takeWhile (fun c => c ≠ '/')).reverse
    let head := p.take (p.length - tail.length)
    if head ≠ [] ∧ ¬ head.all (fun c => c = '/') then
      (head.reverse.dropWhile (fun c => c = '/')).reverse
    else head
  else []

/-- One step of `posixpath.normpath`'s component loop, on a reversed
accumulator.  `absMode` is true when the path being normalized is absolute
(initial slashes present), in which case a `".."` at the root is dropped. -/
def pushSeg (absMode : Bool) (acc : List Str) (s : Str) : List Str :=
  if s = [] ∨ s = pys "." then acc
  else if s = pys ".." then
    match acc with
    | [] => if absMode then [] else [pys ".."]
    | a :: rest => if ¬ absMode ∧ a = pys ".." then s :: a :: rest else rest
  else s :: acc

/-- `posixpath.normpath` on the component list of a *relative* path. -/
def normRelSegs (xs : List Str) : List Str :=
  (xs.foldl (pushSeg false) []).reverse

/-- `posixpath.normpath` on the component list of an *absolute* path
(components only; the leading slash is implicit). -/
def normAbsSegs (xs : List Str) : List Str :=
  (xs.foldl (pushSeg true) []).reverse

/-- Split a path string on `'/'` (`str.split('/')`). -/
def splitSlash (p : Str) : List Str := pySplitAll '/' p

/-- `'/'.join(components)`. -/
def joinSlash (l : List Str) : Str := (l.intersperse (pys "/")).flatten

/-- Length of the longest common prefix (`os.path.commonprefix` on two
component lists). -/
def commonPrefixLen : List Str → List Str → Nat
  | a :: as, b :: bs => if a = b then commonPrefixLen as bs + 1 else 0
  | _, _ => 0

/-- A well-formed working directory: absolute, normalized components. -/
def cwdOk (cwd : List Str) : Prop :=
  ∀ s ∈ cwd, s ≠ [] ∧ s ≠ pys "." ∧ s ≠ pys ".."

/-- `os.path.relpath(path, start)` (posix), with the working directory
explicit.  `path` is nonempty at every call site of the program (the
`ValueError` branch for an empty `path` is not modelled). -/
def relpathCwd (cwd : List Str) (path start : Str) : Str :=
  let pl := normAbsSegs (cwd ++ splitSlash path)
  let sl := normAbsSegs (cwd ++ splitSlash start)
  let i := commonPrefixLen sl pl
  let rel := List.replicate (sl.length - i) (pys "..") ++ pl.drop i
  if rel = [] then pys "." else joinSlash rel

/-- Resolving a relative reference against a directory (how the browser or
the filesystem interprets the rewritten attribute): concatenate the
components and normalize.  This is the specification-side notion of
"resolved against the directory of the page's local path". -/
def resolveAgainst (dir rel : Str) : List Str :=
  normRelSegs (splitSlash dir ++ splitSlash rel)

/-- The local path at which `download_asset` (source lines 617–633) writes
an asset: `ensure_local_path(urlparse(asset_url).path)`. -/
def download_asset_local (asset_url : Str) : Str :=
  ensure_local_path (urlparse asset_url []).path

/-- The relative path `rewrite_html_and_collect`'s attribute rewriter
(source lines 568–577) stores for a same-site absolute URL `absu` on a page
fetched from `base_url`:
`os.path.relpath(ensure_local_path(urlparse(absu).path),
os.path.dirname(ensure_local_path(urlparse(base_url).path)) or ".")`. -/
def rewriteAttrRel (cwd : List Str) (base_url absu : Str) : Str :=
  let local_ := ensure_local_path (urlparse absu []).path
  let current := ensure_local_path (urlparse base_url []).path
  let d := dirname current
  relpathCwd cwd local_ (if d = [] then pys "." else d)

/-! ## Fetchers and the snapshot resolver -/

/-- The slice of a `requests.Response` the program reads.  Header lookup in
requests is case-insensitive, so `headers.get("X-Archive-Orig-status") or
headers.get("X-Archive-Orig-Status")` is one lookup; an absent header is
modelled as the empty string (`None` and `""` are both falsy, and the code
tests truthiness before using a header value).  `content` on a synthesized
`requests.Response()` is never read by the program (it is gated behind a
`status_code == 200` check), so it is modelled as empty. -/
structure Response where
  status_code : Int
  orig_status : Str
  content_type : Str
  content : Str
deriving DecidableEq

/-- The exception `session.get` may raise.  `requests.exceptions.SSLError`
is a subclass of `Exception` (via `ConnectionError`), and
`requests.exceptions.Timeout` is matched before the blanket `Exception`. -/
inductive PyExn where
  | timeoutExn
  | sslExn
  | otherExn
deriving DecidableEq

/-- The two serving modes of the raw-capture endpoint: `id_` (identity)
and `if_` (redirect-following fallback). -/
inductive Mode where
  | identity
  | fallback
deriving DecidableEq

/-- Oracle for `session.get` on the raw-capture endpoint: given the mode and
the `(timestamp, original)` pair addressed, the outcome of the HTTP GET —
either a response or a raised transport exception. -/
def Transport : Type := Mode → Str → Str → Except PyExn Response

/-- The synthesized `requests.Response()` with `status_code = 504`. -/
def synthResp (code : Int) : Response :=
  { status_code := code, orig_status := [], content_type := [], content := [] }

/-- `fetch_id` (source lines 460–473): identity-mode GET; a raised
`Timeout` is converted to a synthesized 504 response, any other raised
exception to a synthesized 500 response.  The result is an `Except` because
the Python function could in principle raise — the body shows it never
does. -/
def fetch_id (t : Transport) (ts original : Str) : Except PyExn Response :=
  match t Mode.identity ts original with
  | Except.error PyExn.timeoutExn => Except.ok (synthResp 504)
  | Except.error _ => Except.ok (synthResp 500)
  | Except.ok r => Except.ok r

/-- `fetch_if` (source lines 476–489): fallback-mode GET, same error
conversion as `fetch_id`. -/
def fetch_if (t : Transport) (ts original : Str) : Except PyExn Response :=
  match t Mode.fallback ts original with
  | Except.error PyExn.timeoutExn => Except.ok (synthResp 504)
  | Except.error _ => Except.ok (synthResp 500)
  | Except.ok r => Except.ok r

/-- The parse of the archive-reported original status header that
`origin_ok` performs: `int(str(s).split()[0])`, with `IndexError` and
`ValueError` both collapsing to `None`. -/
def parseOrigCode (resp : Response) : Option Int :=
  let s := resp.orig_status
  if s = [] then none
  else match firstWsToken s with
    | none => none
    | some tok => pyInt tok

/-- `origin_ok` (source lines 492–500): when the archive-reported original
status header parses, require it in `[200, 300)`; otherwise fall back to the
outer status code. -/
def origin_ok (resp : Response) : Bool :=
  match parseOrigCode resp with
  | some code => decide (200 ≤ code ∧ code < 300)
  | none => decide (200 ≤ resp.status_code ∧ resp.status_code < 300)

/-- `looks_html` (source lines 503–505). -/
def looks_html (resp : Response) : Bool :=
  let ctype := pyLower resp.content_type
  pyStartsWith (pys "text/html") ctype ||
  pyStartsWith (pys "application/xhtml+xml") ctype ||
  pyContains (pys "html") ctype

/-- One CDX record row, `dict(zip(header, row))` with the six requested
fields.  The program reads fields with `r.get(k, "")`, so a missing field is
the empty string. -/
structure Rec where
  timestamp : Str
  original : Str
  mimetype : Str
  statuscode : Str
  digest : Str
  length : Str
deriving DecidableEq

/-- Stable insertion for descending sort by timestamp: an earlier element is
placed before later elements with an equal key, matching Python's stable
`sorted(..., reverse=True)`. -/
def insertDesc (r : Rec) : List Rec → List Rec
  | [] => [r]
  | e :: es =>
    if strLe e.timestamp r.timestamp then r :: e :: es
    else e :: insertDesc r es

/-- `sorted(records, key=lambda x: x["timestamp"], reverse=True)`. -/
def sortDesc : List Rec → List Rec
  | [] => []
  | x :: xs => insertDesc x (sortDesc xs)

/-- The loop body of `pick_best_snapshot` for one already-fetched response:
the three usability gates, in source order. -/
def snapshotUsableResp (include_nonhtml : Bool) (resp : Response) : Bool :=
  resp.status_code = 200 && origin_ok resp &&
    (include_nonhtml || looks_html resp)

/-- The response value `fetch_id` always returns (it never raises). -/
def fetchIdVal (t : Transport) (ts original : Str) : Response :=
  match t Mode.identity ts original with
  | Except.error PyExn.timeoutExn => synthResp 504
  | Except.error _ => synthResp 500
  | Except.ok r => r

/-- Usability of a capture record under transport `t`: the response its
identity-mode fetch produces passes all three gates of
`pick_best_snapshot`. -/
def snapshotUsable (t : Transport) (include_nonhtml : Bool) (r : Rec) :
    Bool :=
  snapshotUsableResp include_nonhtml (fetchIdVal t r.timestamp r.original)

/-- The iteration of `pick_best_snapshot` (source lines 419–456) over the
sorted records.  The `try/except requests.exceptions.SSLError` around
`fetch_id` falls back to `fetch_if`; any other raised exception would
propagate (`Except.error`). -/
def pickBestLoop (t : Transport) (include_nonhtml : Bool) :
    List Rec → Except PyExn (Option (Rec × Str))
  | [] => Except.ok none
  | r :: rest =>
    let respE : Except PyExn Response :=
      match fetch_id t r.timestamp r.original with
      | Except.error PyExn.sslExn => fetch_if t r.timestamp r.original
      | Except.error e => Except.error e
      | Except.ok resp => Except.ok resp
    match respE with
    | Except.error e => Except.error e
    | Except.ok resp =>
      if resp.status_code ≠ 200 then pickBestLoop t include_nonhtml rest
      else if ¬ origin_ok resp then pickBestLoop t include_nonhtml rest
      else if ¬ include_nonhtml ∧ ¬ looks_html resp then
        pickBestLoop t include_nonhtml rest
      else Except.ok (some (r, resp.content))

/-- `pick_best_snapshot` (source lines 419–456): sort newest-first, fetch
and classify each capture, return the first usable one with its body. -/
def pick_best_snapshot (t : Transport) (records : List Rec)
    (include_nonhtml : Bool) : Except PyExn (Option (Rec × Str)) :=
  pickBestLoop t include_nonhtml (sortDesc records)

/-! ## Candidate Builder -/

/-- In-place update of an insertion-ordered Python dict
(`d[k] = v` inserts at the end for a new key and overwrites in place for an
existing key, preserving the key's position). -/
def dictSet {α : Type} : List (Str × α) → Str → α → List (Str × α)
  | [], k, r => [(k, r)]
  | (k', v) :: rest, k, r =>
    if k' = k then (k', r) :: rest else (k', v) :: dictSet rest k r

/-- Dict lookup (`d.get(k)` / `k in d`). -/
def dictGet {α : Type} : List (Str × α) → Str → Option α
  | [], _ => none
  | (k', v) :: rest, k => if k' = k then some v else dictGet rest k

/-- The filter of `latest_per_original` (source lines 368–405), in source
order: nonempty `original`; nonempty `timestamp` not above the cutoff
(string comparison); not a `robots.txt` path; path-prefix filter when set;
HTML-ish mimetype unless non-HTML records are included. -/
def cbKeep (cutoff_ts : Str) (pathPre : Option Str) (include_nonhtml : Bool)
    (r : Rec) : Bool :=
  r.original ≠ [] &&
  (r.timestamp ≠ [] && !(strLt cutoff_ts r.timestamp)) &&
  !(pyEndsWith (pys "/robots.txt") (urlparse r.original []).path) &&
  (match pathPre with
   | some pre => pyStartsWith pre (urlparse r.original []).path
   | none => true) &&
  (include_nonhtml ||
    (let mime := pyLower r.mimetype
     pyStartsWith (pys "text/html") mime || pyContains (pys "html") mime))

/-- The deduplication key of `latest_per_original`: the raw URL, or its
query-stripped normalization when `ignore_query_params` is set. -/
def cbKey (ignore_query_params : Bool) (r : Rec) : Str :=
  if ignore_query_params then normalize_url r.original true else r.original

/-- The dict-building loop of `latest_per_original`. -/
def cbFold (cutoff_ts : Str) (pathPre : Option Str)
    (include_nonhtml ignore_query_params : Bool)
    (acc : List (Str × Rec)) (r : Rec) : List (Str × Rec) :=
  if cbKeep cutoff_ts pathPre include_nonhtml r then
    let k := cbKey ignore_query_params r
    match dictGet acc k with
    | none => dictSet acc k r
    | some v => if strLt v.timestamp r.timestamp then dictSet acc k r else acc
  else acc

/-- `latest_per_original` (source lines 368–405): keep, per key, the record
with the largest timestamp among the records that pass the filter; output
in key-insertion order (`list(latest.values())`). -/
def latest_per_original (records : List Rec) (cutoff_ts : Str)
    (pathPre : Option Str) (include_nonhtml ignore_query_params : Bool) :
    List Rec :=
  ((records.foldl
      (cbFold cutoff_ts pathPre include_nonhtml ignore_query_params) []).map
    Prod.snd)

/-! ## CSS rewriting

`CSS_URL_RE = re.compile(r"url\(\s*(['\x22]?)([^'\x22)]+)\1\s*\)", re.I)`.
The pattern needs no backtracking: the quote characters and `')'` are
excluded from group 2, so after the greedy group-2 run the closing quote
(or `')'` in the unquoted case) can only sit immediately after the run.
`re.sub` scans left to right, replacing each non-overlapping match and
advancing one character on failure. -/

/-- Characters group 2 of `CSS_URL_RE` may contain: anything but a quote
or `')'`. -/
def cssInnerChar (c : Char) : Bool := c ≠ '\'' ∧ c ≠ '"' ∧ c ≠ ')'

/-- One match of `CSS_URL_RE`: the whole matched text (`group(0)`), the
optional quote (`group(1)`) and the inner reference (`group(2)`). -/
structure CssMatch where
  g0 : Str
  quote : Str
  inner : Str
deriving DecidableEq

/-- Attempt to match `CSS_URL_RE` at the start of `s`; on success return the
match and the rest of the input after it. -/
def matchCssUrlAt (s : Str) : Option (CssMatch × Str) :=
  match s with
  | u :: r :: l :: p :: rest =>
    if pyLowerChar u = 'u' ∧ pyLowerChar r = 'r' ∧ pyLowerChar l = 'l' ∧
       p = '(' then
      let ws1 := rest.takeWhile pyIsSpace
      let rest1 := rest.dropWhile pyIsSpace
      match rest1 with
      | [] => none
      | c :: rest2 =>
        if c = '\'' ∨ c = '"' then
          let inner := rest2.takeWhile cssInnerChar
          let rest3 := rest2.dropWhile cssInnerChar
          if inner = [] then none
          else match rest3 with
            | [] => none
            | c2 :: rest4 =>
              if c2 = c then
                let ws2 := rest4.takeWhile pyIsSpace
                let rest5 := rest4.dropWhile pyIsSpace
                match rest5 with
                | [] => none
                | c3 :: rest6 =>
                  if c3 = ')' then
                    some (⟨[u, r, l, p] ++ ws1 ++ [c] ++ inner ++ [c] ++
                            ws2 ++ [')'], [c], inner⟩, rest6)
                  else none
              else none
        else
          let inner := rest1.takeWhile cssInnerChar
          let rest3 := rest1.dropWhile cssInnerChar
          if inner = [] then none
          else match rest3 with
            | [] => none
            | c2 :: rest4 =>
              if c2 = ')' then
                some (⟨[u, r, l, p] ++ ws1 ++ inner ++ [')'], [], inner⟩,
                  rest4)
              else none
    else none
  | _ => none

/-- The left-to-right scan of `re.sub`: the first match of `CSS_URL_RE` in
`s`, as `(text before the match, match, text after the match)`. -/
def findCssMatch : Str → Option (Str × CssMatch × Str)
  | [] => none
  | c :: rest =>
    match matchCssUrlAt (c :: rest) with
    | some (m, after) => some ([], m, after)
    | none =>
      match findCssMatch rest with
      | some (pre, m, after) => some (c :: pre, m, after)
      | none => none

/-- `CSS_URL_RE.sub(f, s)`, fuelled (each match consumes at least one
character, so `s.length` steps suffice). -/
def cssSubAux (f : CssMatch → Str) : Nat → Str → Str
  | 0, s => s
  | fuel + 1, s =>
    match findCssMatch s with
    | none => s
    | some (pre, m, after) => pre ++ f m ++ cssSubAux f fuel after

/-- `CSS_URL_RE.sub(f, s)`. -/
def cssSub (f : CssMatch → Str) (s : Str) : Str := cssSubAux f s.length s

/-- The replacement function `repl` of `rewrite_css_urls` (source lines
515–524): `data:` URIs and pure fragments are returned as matched;
same-site references become `url(<path relative to the CSS output dir>)`;
everything else becomes `url(<raw>)` (the stripped group 2, unquoted). -/
def cssRepl (cwd : List Str) (base_url root_host out_css_dir : Str)
    (m : CssMatch) : Str :=
  let raw := pyStrip m.inner
  if pyStartsWith (pys "data:") raw ∨ pyStartsWith (pys "#") raw then m.g0
  else
    let absu := urljoin base_url raw
    if is_same_site absu root_host then
      let local_ := ensure_local_path (urlparse absu []).path
      let rel := relpathCwd cwd local_ out_css_dir
      pys "url(" ++ rel ++ [')']
    else pys "url(" ++ raw ++ [')']

/-- `rewrite_css_urls` (source lines 509–527).  The utf-8/latin-1 decode is
the identity on the text model; the working directory parameter feeds
`os.path.relpath`. -/
def rewrite_css_urls (cwd : List Str) (css : Str)
    (base_url root_host out_css_dir : Str) : Str :=
  cssSub (cssRepl cwd base_url root_host out_css_dir) css

/-! ## Capture Index Client -/

/-- The two CDX endpoint addresses (`CDX` and `CDX_ALTERNATE`). -/
inductive CdxEndpoint where
  | cdx
  | cdxAlternate
deriving DecidableEq

/-- Oracle for `_cdx` (source lines 128–151): the rows a CDX query with the
given params against the given endpoint yields.  `_cdx` itself absorbs every
network and JSON-parse failure into an empty row list, so the oracle is
total. -/
def CdxOracle : Type := CdxEndpoint → List (Str × Str) → List Rec

/-- `_cdx(session, params, timeout, endpoint)`: the network request and JSON
decoding are the oracle. -/
def cdxFetch (o : CdxOracle) (params : List (Str × Str))
    (endpoint : CdxEndpoint) : List Rec :=
  o endpoint params

/-- `_cdx_multi_endpoint` (source lines 154–170): an extra
`matchType=prefix` query when the params carry no matchType, the primary
endpoint, and — when fewer than 10 rows were collected — the alternate
endpoint with the same params. -/
def cdx_multi_endpoint (o : CdxOracle) (params : List (Str × Str)) :
    List Rec :=
  let results :=
    if dictGet params (pys "matchType") = none then
      cdxFetch o (dictSet params (pys "matchType") (pys "prefix"))
        CdxEndpoint.cdx
    else []
  let results := results ++ cdxFetch o params CdxEndpoint.cdx
  if results.length < 10 then
    results ++ cdxFetch o params CdxEndpoint.cdxAlternate
  else results

/-- The `closest` object of an availability-API response, when the
`archived_snapshots`/`closest` keys are present. -/
structure AvailClosest where
  available : Bool
  url : Str
  timestamp : Str
deriving DecidableEq

/-- An availability-API response: HTTP status and the optional `closest`
snapshot object. -/
structure AvailResp where
  status_code : Int
  closest : Option AvailClosest
deriving DecidableEq

/-- Oracle for the availability API (`archive.org/wayback/available`),
indexed by the queried url and timestamp; `Except.error` models a raised
network or JSON error (caught by the surrounding `try`, which then returns
`[]`, discarding any rows already collected). -/
def AvailOracle : Type := Str → Str → Except Unit AvailResp

/-- The synthetic record `check_availability_api` builds from a `closest`
snapshot. -/
def availRow (ts orig : Str) : Rec :=
  { timestamp := ts, original := orig, mimetype := pys "text/html",
    statuscode := pys "200", digest := [], length := [] }

/-- The per-response row extraction of `check_availability_api`:
a row if the status is 200, `closest` is present, `available` and `url` are
truthy, and timestamp and url are nonempty. -/
def availRows (resp : AvailResp) : List Rec :=
  if resp.status_code = 200 then
    match resp.closest with
    | some c =>
      if c.available ∧ c.url ≠ [] ∧ c.timestamp ≠ [] then
        [availRow c.timestamp c.url]
      else []
    | none => []
  else []

/-- `check_availability_api` (source lines 173–231): query the availability
API for the domain and for its `www.`-prefixed variant. -/
def check_availability_api (A : AvailOracle) (domain cutoff_ts : Str) :
    List Rec :=
  match A domain cutoff_ts with
  | Except.error _ => []
  | Except.ok resp1 =>
    let dw := if pyStartsWith (pys "www.") domain then domain
      else pys "www." ++ domain
    match A dw cutoff_ts with
    | Except.error _ => []
    | Except.ok resp2 => availRows resp1 ++ availRows resp2

/-- Insert into a Python set, modelled as an insertion-ordered
duplicate-free list (set iteration order is unspecified in Python; every
theorem below is order-independent). -/
def setInsert (l : List Str) (x : Str) : List Str :=
  if x ∈ l then l else l ++ [x]

/-- The `domain_variants` set of `cdx_query_variants` (source lines
247–260). -/
def domain_variants (domain : Str) : List Str :=
  let v := setInsert (setInsert [] domain) (pyLower domain)
  let v := setInsert v
    (if pyStartsWith (pys "www.") domain then domain.drop 4
     else pys "www." ++ domain)
  if ¬ pyStartsWith (pys "www.") (pyLower domain) then
    setInsert v (pys "www." ++ pyLower domain)
  else v

/-- The constant query params of `cdx_query_variants` (`base_all_urls`). -/
def cdxBaseParams : List (Str × Str) :=
  [(pys "output", pys "json"),
   (pys "fl", pys "timestamp,original,mimetype,statuscode,digest,length"),
   (pys "collapse", pys "urlkey"),
   (pys "filter", pys "statuscode:200")]

/-- The per-URL "latest snapshot" dict loop shared by `cdx_query_variants`
(STEP 3, source lines 319–327). -/
def latestPerUrlFold (acc : List (Str × Rec)) (r : Rec) :
    List (Str × Rec) :=
  if r.original ≠ [] ∧ r.timestamp ≠ [] then
    match dictGet acc r.original with
    | none => dictSet acc r.original r
    | some v =>
      if strLt v.timestamp r.timestamp then dictSet acc r.original r else acc
  else acc

/-- STEP 1 of `cdx_query_variants` (source lines 265–302): for every domain
variant, a wildcard query (`url=d*`) and a matchType-scoped query
(`url=d/*` with `matchType=domain|host`), both against the primary CDX
endpoint, rows concatenated. -/
def cdxAllUrls (o : CdxOracle) (domain : Str) (subdomains : Bool) :
    List Rec :=
  (domain_variants domain).foldl
    (fun acc d =>
      let r1 := cdxFetch o
        (dictSet cdxBaseParams (pys "url") (d ++ pys "*")) CdxEndpoint.cdx
      let r2 := cdxFetch o
        (dictSet (dictSet cdxBaseParams (pys "url") (d ++ pys "/*"))
          (pys "matchType")
          (if subdomains then pys "domain" else pys "host"))
        CdxEndpoint.cdx
      acc ++ r1 ++ r2) []

/-- STEPS 2–3 and the availability fallback of `cdx_query_variants`
(source lines 312–350): cutoff filtering, per-URL latest-snapshot dedup,
and the availability-API fallback when fewer than five unique URLs were
found. -/
def cdxPostprocess (A : AvailOracle) (domain cutoff_ts : Str)
    (all_urls : List Rec) : List Rec :=
  let filtered := all_urls.filter (fun r => strLe r.timestamp cutoff_ts)
  let latest := filtered.foldl latestPerUrlFold []
  let uniq := latest.map Prod.snd
  if uniq.length < 5 then
    uniq ++ ((check_availability_api A domain cutoff_ts).filter
      (fun r => r.original ≠ [] ∧ dictGet latest r.original = none))
  else uniq

/-- `cdx_query_variants` (source lines 234–350). -/
def cdx_query_variants (o : CdxOracle) (A : AvailOracle)
    (domain cutoff_ts : Str) (subdomains : Bool) : List Rec :=
  cdxPostprocess A domain cutoff_ts (cdxAllUrls o domain subdomains)

/-! ## Rate limiter

Floats are modelled as exact rationals; `0.05` is `1/20`.  `take` receives
the elapsed monotonic time since the previous call explicitly; the
`time.sleep` branch only spends wall-clock time, its token effect is the
assignment `tokens = 0.0`. -/

/-- The token-bucket state of `RateLimiter` (source lines 47–68). -/
structure RateLimiter where
  capacity : ℚ
  tokens : ℚ
  fill : ℚ
deriving DecidableEq

/-- `RateLimiter.__init__(rps, burst)`: capacity `max(burst, 1)`, initially
full, refill rate `max(rps, 0.05)`. -/
def RateLimiter.init (rps : ℚ) (burst : ℤ) : RateLimiter :=
  let cap : ℚ := max (burst : ℚ) 1
  { capacity := cap, tokens := cap, fill := max rps (1 / 20) }

/-- `RateLimiter.take(n)` after `elapsed` seconds of refill: clamp the
refilled tokens at capacity; when short, sleep and zero the bucket,
otherwise debit `n`. -/
def RateLimiter.take (rl : RateLimiter) (elapsed n : ℚ) : RateLimiter :=
  let tokens := min rl.capacity (rl.tokens + elapsed * rl.fill)
  if tokens < n then { rl with tokens := 0 }
  else { rl with tokens := tokens - n }

/-- Specification-side restatement of the (amended) local-path derivation:
append `index.html` when the path is empty or ends in `/`; cut at the first
`'?'` or `'#'`; drop **all** leading path separators.  Compared against
`ensure_local_path` in claim C3. -/
def local_path_spec (path : Str) : Str :=
  let p1 := if path = [] ∨ pyEndsWith (pys "/") path
    then path ++ pys "index.html" else path
  (p1.takeWhile (fun c => c ≠ '?' ∧ c ≠ '#')).dropWhile (fun c => c = '/')

/-!
# Theorems

Claim theorems (one per claim), their witnesses and counterexamples, and
the helper lemmas they share.
-/

/-- **C10.** For every constructor input, the rate limiter clamps its
parameters so that its capacity equals `max(burst, 1) ≥ 1` and its refill
rate equals `max(rps, 0.05) > 0`, and every call to `take(n)` with
`0 < n ≤ capacity` (and a nonnegative elapsed time, since the clock is
monotonic) preserves the invariant that the stored token count lies in the
closed interval `[0, capacity]`. -/
theorem C10_rateLimiter_clamp_and_invariant :
    (∀ (rps : ℚ) (burst : ℤ),
      (RateLimiter.init rps burst).capacity = max (burst : ℚ) 1 ∧
      1 ≤ (RateLimiter.init rps burst).capacity ∧
      (RateLimiter.init rps burst).fill = max rps (1 / 20) ∧
      0 < (RateLimiter.init rps burst).fill ∧
      (RateLimiter.init rps burst).tokens =
        (RateLimiter.init rps burst).capacity) ∧
    (∀ (rl : RateLimiter) (elapsed n : ℚ),
      0 ≤ rl.tokens → rl.tokens ≤ rl.capacity →
      0 < n → n ≤ rl.capacity → 0 ≤ elapsed →
      0 ≤ (rl.take elapsed n).tokens ∧
      (rl.take elapsed n).tokens ≤ (rl.take elapsed n).capacity ∧
      (rl.take elapsed n).capacity = rl.capacity) := by
  constructor
  · intro rps burst
    refine ⟨rfl, le_max_right _ _, rfl, ?_, rfl⟩
    exact lt_of_lt_of_le (by norm_num) (le_max_right _ _)
  · intro rl elapsed n h0 hcap hn _ _
    simp only [RateLimiter.take]
    split
    · exact ⟨le_refl 0, le_trans h0 hcap, rfl⟩
    · rename_i h
      have hle : n ≤ min rl.capacity (rl.tokens + elapsed * rl.fill) :=
        le_of_not_lt h
      refine ⟨sub_nonneg.mpr hle, ?_, rfl⟩
      calc min rl.capacity (rl.tokens + elapsed * rl.fill) - n
          ≤ min rl.capacity (rl.tokens + elapsed * rl.fill) :=
            sub_le_self _ (le_of_lt hn)
        _ ≤ rl.capacity := min_le_left _ _

/-- Witness for C10 at a concrete state: `rps = 1/2`, `burst = 2`,
`take` with one token after no elapsed time. -/
theorem C10_rateLimiter_witness :
    ((0 : ℚ) ≤ (RateLimiter.init (1/2) 2).tokens ∧
     (RateLimiter.init (1/2) 2).tokens ≤ (RateLimiter.init (1/2) 2).capacity ∧
     (0 : ℚ) < 1 ∧ (1 : ℚ) ≤ (RateLimiter.init (1/2) 2).capacity ∧
     (0 : ℚ) ≤ 0) ∧
    0 ≤ ((RateLimiter.init (1/2) 2).take 0 1).tokens ∧
    ((RateLimiter.init (1/2) 2).take 0 1).tokens ≤
      ((RateLimiter.init (1/2) 2).take 0 1).capacity := by
  have h1 : (0 : ℚ) ≤ (RateLimiter.init (1/2) 2).tokens := by
    simp [RateLimiter.init]
  have h2 : (RateLimiter.init (1/2) 2).tokens ≤
      (RateLimiter.init (1/2) 2).capacity := le_refl _
  have h3 : (0 : ℚ) < 1 := by norm_num
  have h4 : (1 : ℚ) ≤ (RateLimiter.init (1/2) 2).capacity := by
    simp [RateLimiter.init]
  have h5 : (0 : ℚ) ≤ 0 := le_refl 0
  have := (C10_rateLimiter_clamp_and_invariant.2
    (RateLimiter.init (1/2) 2) 0 1 h1 h2 h3 h4 h5)
  exact ⟨⟨h1, h2, h3, h4, h5⟩, this.1, this.2.1⟩

/-- **C9.** For every fetch in either mode (identity or fallback), a network
timeout produces a synthesized response carrying status 504 and any other
transport error a synthesized response carrying status 500; no transport
exception propagates to the caller (`fetch_id`/`fetch_if` always return
`Except.ok`), so every fetch outcome is uniformly a response. -/
theorem C9_fetch_synthesizes_failures :
    ∀ (t : Transport) (ts original : Str),
      (t Mode.identity ts original = Except.error PyExn.timeoutExn →
        fetch_id t ts original = Except.ok (synthResp 504)) ∧
      (∀ e, e ≠ PyExn.timeoutExn →
        t Mode.identity ts original = Except.error e →
        fetch_id t ts original = Except.ok (synthResp 500)) ∧
      (∀ r, t Mode.identity ts original = Except.ok r →
        fetch_id t ts original = Except.ok r) ∧
      (∀ e, fetch_id t ts original ≠ Except.error e) ∧
      (t Mode.fallback ts original = Except.error PyExn.timeoutExn →
        fetch_if t ts original = Except.ok (synthResp 504)) ∧
      (∀ e, e ≠ PyExn.timeoutExn →
        t Mode.fallback ts original = Except.error e →
        fetch_if t ts original = Except.ok (synthResp 500)) ∧
      (∀ r, t Mode.fallback ts original = Except.ok r →
        fetch_if t ts original = Except.ok r) ∧
      (∀ e, fetch_if t ts original ≠ Except.error e) := by
  intro t ts original
  refine ⟨?_, ?_, ?_, ?_, ?_, ?_, ?_, ?_⟩
  · intro h; simp [fetch_id, h]
  · intro e he h
    cases e with
    | timeoutExn => exact absurd rfl he
    | sslExn => simp [fetch_id, h]
    | otherExn => simp [fetch_id, h]
  · intro r h; simp [fetch_id, h]
  · intro e
    unfold fetch_id
    cases h : t Mode.identity ts original with
    | ok r => simp
    | error e' => cases e' <;> simp
  · intro h; simp [fetch_if, h]
  · intro e he h
    cases e with
    | timeoutExn => exact absurd rfl he
    | sslExn => simp [fetch_if, h]
    | otherExn => simp [fetch_if, h]
  · intro r h; simp [fetch_if, h]
  · intro e
    unfold fetch_if
    cases h : t Mode.fallback ts original with
    | ok r => simp
    | error e' => cases e' <;> simp

/-- Witness for C9: a transport that times out in identity mode and raises a
non-timeout error in fallback mode. -/
theorem C9_fetch_witness :
    (fun (_ : Mode) (_ _ : Str) =>
        (Except.error PyExn.timeoutExn : Except PyExn Response))
      Mode.identity (pys "20200101000000") (pys "http://example.com/")
      = Except.error PyExn.timeoutExn ∧
    fetch_id
      (fun (_ : Mode) (_ _ : Str) =>
        (Except.error PyExn.timeoutExn : Except PyExn Response))
      (pys "20200101000000") (pys "http://example.com/")
      = Except.ok (synthResp 504) :=
  ⟨rfl,
   (C9_fetch_synthesizes_failures
      (fun (_ : Mode) (_ _ : Str) =>
        (Except.error PyExn.timeoutExn : Except PyExn Response))
      (pys "20200101000000") (pys "http://example.com/")).1 rfl⟩

/-- **C7.** The claim says that a capture whose identity-mode fetch fails
with a TLS/transport failure is retried exactly once in fallback
(`if_`) mode before classification.  The code's `except
requests.exceptions.SSLError` handler in `pick_best_snapshot` documents
that intent, but `fetch_id` swallows every exception (`except Exception`)
and returns a synthesized status-500 response, so the handler is
unreachable: at a capture whose identity-mode GET raises `SSLError` while
fallback mode would serve a perfectly usable 200 HTML response, the
resolver returns no snapshot at all — the capture is skipped without any
fallback-mode retry. -/
theorem C7_ssl_fallback_never_runs :
    pick_best_snapshot
      (fun m _ _ =>
        match m with
        | Mode.identity => (Except.error PyExn.sslExn : Except PyExn Response)
        | Mode.fallback => Except.ok
            { status_code := 200, orig_status := pys "200 OK",
              content_type := pys "text/html",
              content := pys "<html></html>" })
      [{ timestamp := pys "20200101000000",
         original := pys "http://example.com/",
         mimetype := pys "text/html", statuscode := pys "200",
         digest := [], length := [] }]
      false
      = Except.ok none ∧
    snapshotUsableResp false
      { status_code := 200, orig_status := pys "200 OK",
        content_type := pys "text/html",
        content := pys "<html></html>" } = true := by
  constructor
  · rfl
  · rfl

theorem pyBefore_cons (c a : Char) (t : Str) :
    pyBefore c (a :: t) = if a = c then [] else a :: pyBefore c t := by
  simp only [pyBefore, pySplit1]
  by_cases h : a = c
  · simp [h]
  · simp only [h, if_false]
    cases hh : pySplit1 c t with
    | none => simp [pyBefore, hh]
    | some p => cases p with | mk x y => simp [pyBefore, hh]

theorem before_chain (x : Str) :
    pyBefore '#' (pyBefore '?' x) =
      x.takeWhile (fun c => c ≠ '?' ∧ c ≠ '#') := by
  induction x with
  | nil => rfl
  | cons a t ih =>
    rw [pyBefore_cons]
    by_cases h1 : a = '?'
    · subst h1
      simp [List.takeWhile_cons, pyBefore, pySplit1]
    · rw [if_neg h1, pyBefore_cons]
      by_cases h2 : a = '#'
      · subst h2
        simp [List.takeWhile_cons, h1]
      · rw [if_neg h2, ih]
        simp [List.takeWhile_cons, h1, h2]

/-- **C3 (amended).** For every URL path string, the deterministic
local-path derivation appends `index.html` when the path is empty or ends
in `/`, cuts at the first `'?'` or `'#'`, and strips **all** leading path
separators (Python's `lstrip("/")`), matching the specification-side
`local_path_spec`; and the Asset Materializer's local-path computation is
the same pure function applied to the same URL path, so identical input
paths yield identical local paths across the HTML-rewrite, CSS-rewrite and
asset-download call sites (all of which are `ensure_local_path ∘ path ∘
urlparse` in the source). -/
theorem C3_local_path_derivation :
    (∀ p : Str, ensure_local_path p = local_path_spec p) ∧
    (∀ u : Str,
      download_asset_local u = ensure_local_path (urlparse u []).path) := by
  constructor
  · intro p
    by_cases hp : p = []
    · subst hp; rfl
    · by_cases hc : p = [] ∨ pyEndsWith (pys "/") p = true
      · simp only [ensure_local_path, local_path_spec, if_pos hc, if_neg hp,
          before_chain]
        rfl
      · simp only [ensure_local_path, local_path_spec, if_neg hc,
          before_chain]
        rfl
  · intro u; rfl

/-- **C3 counterexample.** The claim says exactly one leading path
separator is stripped; at the URL path `"//a"` the code produces `"a"`
(all leading slashes stripped), not `"/a"`. -/
theorem C3_counterexample :
    ensure_local_path (pys "//a") = pys "a" ∧ pys "a" ≠ pys "/a" := by
  exact ⟨rfl, by decide⟩

/-! ### Order lemmas for Python string comparison -/

theorem strLt_irrefl (a : Str) : strLt a a = false := by
  induction a with
  | nil => rfl
  | cons c t ih => simp [strLt, ih]

theorem strLe_refl (a : Str) : strLe a a = true := by
  simp [strLe, strLt_irrefl]

theorem strLt_trans : ∀ a b c : Str, strLt a b = true → strLt b c = true →
    strLt a c = true
  | [], [], _, h1, _ => by simp [strLt] at h1
  | [], _ :: _, [], _, h2 => by simp [strLt] at h2
  | [], _ :: _, _ :: _, _, _ => rfl
  | _ :: _, [], _, h1, _ => by simp [strLt] at h1
  | _ :: _, _ :: _, [], _, h2 => by simp [strLt] at h2
  | x :: xs, y :: ys, z :: zs, h1, h2 => by
    simp only [strLt] at h1 h2 ⊢
    rcases lt_trichotomy x y with hxy | hxy | hxy
    · rcases lt_trichotomy y z with hyz | hyz | hyz
      · simp [lt_trans hxy hyz]
      · subst hyz; simp [hxy]
      · rw [if_pos hyz] at h2
        exact absurd h2 (by simp [not_lt_of_gt hyz])
    · subst hxy
      rw [if_neg (lt_irrefl x), if_neg (lt_irrefl x)] at h1
      rcases lt_trichotomy x z with hyz | hyz | hyz
      · simp [hyz]
      · subst hyz
        rw [if_neg (lt_irrefl x), if_neg (lt_irrefl x)] at h2
        simp [lt_irrefl, strLt_trans _ _ _ h1 h2]
      · rw [if_neg (not_lt_of_gt hyz), if_pos hyz] at h2
        exact absurd h2 (by simp)
    · rw [if_neg (not_lt_of_gt hxy), if_pos hxy] at h1
      exact absurd h1 (by simp)

theorem strLt_asymm (a b : Str) (h : strLt a b = true) : strLt b a = false := by
  by_contra hc
  have hba : strLt b a = true := by
    cases hh : strLt b a with
    | false => exact absurd hh hc
    | true => rfl
  have := strLt_trans a b a h hba
  rw [strLt_irrefl] at this
  cases this

theorem strLt_connex (a b : Str) (h1 : strLt a b = false)
    (h2 : strLt b a = false) : a = b := by
  induction a generalizing b with
  | nil => cases b with
    | nil => rfl
    | cons y ys => simp [strLt] at h1
  | cons x xs ih =>
    cases b with
    | nil => simp [strLt] at h2
    | cons y ys =>
      simp only [strLt] at h1 h2
      rcases lt_trichotomy x y with hxy | hxy | hxy
      · rw [if_pos hxy] at h1; cases h1
      · subst hxy
        rw [if_neg (lt_irrefl x), if_neg (lt_irrefl x)] at h1 h2
        rw [ih ys h1 h2]
      · rw [if_neg (not_lt_of_gt hxy), if_pos hxy] at h2; cases h2

theorem strLe_trans (a b c : Str) (h1 : strLe a b = true)
    (h2 : strLe b c = true) : strLe a c = true := by
  simp only [strLe, Bool.not_eq_true'] at h1 h2 ⊢
  cases hca : strLt c a with
  | false => rfl
  | true =>
    exfalso
    cases hcb : strLt c b with
    | true => rw [hcb] at h2; cases h2
    | false =>
      cases hbc : strLt b c with
      | true =>
        have := strLt_trans b c a hbc hca
        rw [this] at h1; cases h1
      | false =>
        have hbceq := strLt_connex b c hbc hcb
        rw [hbceq, hca] at h1
        cases h1

theorem strLt_false_strLe (a b : Str) (h : strLt a b = false) :
    strLe b a = true := by
  simp [strLe, h]

theorem strLt_strLe (a b : Str) (h : strLt a b = true) :
    strLe a b = true := by
  simp [strLe, strLt_asymm a b h]

/-! ### Dict lemmas -/

theorem dictGet_none_forall {α : Type} (acc : List (Str × α)) (k : Str)
    (h : dictGet acc k = none) : ∀ kv ∈ acc, kv.1 ≠ k := by
  induction acc with
  | nil => intro kv hkv; cases hkv
  | cons p rest ih =>
    intro kv hkv
    obtain ⟨k', v⟩ := p
    simp only [dictGet] at h
    by_cases hk : k' = k
    · rw [if_pos hk] at h; cases h
    · rw [if_neg hk] at h
      rcases List.mem_cons.mp hkv with h1 | h1
      · subst h1; simpa using hk
      · exact ih h kv h1

theorem dictGet_some_mem {α : Type} (acc : List (Str × α)) (k : Str) (v : α)
    (h : dictGet acc k = some v) : (k, v) ∈ acc := by
  induction acc with
  | nil => cases h
  | cons p rest ih =>
    obtain ⟨k', w⟩ := p
    simp only [dictGet] at h
    by_cases hk : k' = k
    · rw [if_pos hk] at h
      subst hk
      cases h
      exact List.mem_cons_self _ _
    · rw [if_neg hk] at h
      exact List.mem_cons_of_mem _ (ih h)

theorem dictGet_of_mem_nodup {α : Type} (acc : List (Str × α))
    (hn : (acc.map Prod.fst).Nodup) (kv : Str × α) (h : kv ∈ acc) :
    dictGet acc kv.1 = some kv.2 := by
  induction acc with
  | nil => cases h
  | cons p rest ih =>
    obtain ⟨k', w⟩ := p
    simp only [List.map_cons, List.nodup_cons] at hn
    rcases List.mem_cons.mp h with h1 | h1
    · subst h1; simp [dictGet]
    · have hne : k' ≠ kv.1 := by
        intro he
        exact hn.1 (he ▸ (List.mem_map.mpr ⟨kv, h1, rfl⟩))
      simp only [dictGet, if_neg hne]
      exact ih hn.2 h1

theorem dictSet_of_none {α : Type} (acc : List (Str × α)) (k : Str) (v : α)
    (h : dictGet acc k = none) : dictSet acc k v = acc ++ [(k, v)] := by
  induction acc with
  | nil => rfl
  | cons p rest ih =>
    obtain ⟨k', w⟩ := p
    simp only [dictGet] at h
    by_cases hk : k' = k
    · rw [if_pos hk] at h; cases h
    · rw [if_neg hk] at h
      simp [dictSet, hk, ih h]

theorem dictGet_dictSet {α : Type} (acc : List (Str × α)) (k : Str) (v : α)
    (k' : Str) :
    dictGet (dictSet acc k v) k' = if k = k' then some v else dictGet acc k' := by
  induction acc with
  | nil => simp [dictSet, dictGet]
  | cons p rest ih =>
    obtain ⟨k1, w⟩ := p
    simp only [dictSet]
    by_cases h1 : k1 = k
    · subst h1
      simp only [if_pos rfl, dictGet]
      by_cases h2 : k1 = k'
      · simp [h2]
      · simp [h2]
    · rw [if_neg h1]
      simp only [dictGet]
      by_cases h2 : k1 = k'
      · subst h2
        rw [if_pos rfl, if_neg (fun he => h1 he.symm), if_pos rfl]
      · rw [if_neg h2, ih, if_neg h2]

theorem mem_dictSet_nodup {α : Type} (acc : List (Str × α))
    (hn : (acc.map Prod.fst).Nodup) (k : Str) (v : α) (kv : Str × α)
    (h : kv ∈ dictSet acc k v) :
    kv = (k, v) ∨ (kv ∈ acc ∧ kv.1 ≠ k) := by
  induction acc with
  | nil =>
    simp only [dictSet] at h
    rcases List.mem_cons.mp h with h1 | h1
    · exact Or.inl h1
    · cases h1
  | cons p rest ih =>
    obtain ⟨k1, w⟩ := p
    simp only [List.map_cons, List.nodup_cons] at hn
    simp only [dictSet] at h
    by_cases h1 : k1 = k
    · subst h1
      rw [if_pos rfl] at h
      rcases List.mem_cons.mp h with h2 | h2
      · exact Or.inl h2
      · right
        refine ⟨List.mem_cons_of_mem _ h2, ?_⟩
        intro he
        exact hn.1 (he ▸ (List.mem_map.mpr ⟨kv, h2, rfl⟩))
    · rw [if_neg h1] at h
      rcases List.mem_cons.mp h with h2 | h2
      · subst h2
        right
        exact ⟨List.mem_cons_self _ _, by simpa using h1⟩
      · rcases ih hn.2 h2 with h3 | h3
        · exact Or.inl h3
        · exact Or.inr ⟨List.mem_cons_of_mem _ h3.1, h3.2⟩

theorem keys_dictSet_some {α : Type} (acc : List (Str × α)) (k : Str)
    (v w : α) (h : dictGet acc k = some w) :
    (dictSet acc k v).map Prod.fst = acc.map Prod.fst := by
  induction acc with
  | nil => cases h
  | cons p rest ih =>
    obtain ⟨k1, w1⟩ := p
    simp only [dictGet] at h
    by_cases h1 : k1 = k
    · simp [dictSet, h1]
    · rw [if_neg h1] at h
      simp [dictSet, h1, ih h]

/-! ### Candidate Builder invariant -/

theorem cbFold_not_keep (cutoff : Str) (pathPre : Option Str) (inh iqp : Bool)
    (acc : List (Str × Rec)) (r : Rec)
    (hk : ¬ cbKeep cutoff pathPre inh r = true) :
    cbFold cutoff pathPre inh iqp acc r = acc := by
  simp [cbFold, hk]

theorem cbFold_keep_none (cutoff : Str) (pathPre : Option Str)
    (inh iqp : Bool) (acc : List (Str × Rec)) (r : Rec)
    (hk : cbKeep cutoff pathPre inh r = true)
    (hg : dictGet acc (cbKey iqp r) = none) :
    cbFold cutoff pathPre inh iqp acc r = dictSet acc (cbKey iqp r) r := by
  simp [cbFold, hk, hg]

theorem cbFold_keep_lt (cutoff : Str) (pathPre : Option Str)
    (inh iqp : Bool) (acc : List (Str × Rec)) (r : Rec) (v : Rec)
    (hk : cbKeep cutoff pathPre inh r = true)
    (hg : dictGet acc (cbKey iqp r) = some v)
    (hlt : strLt v.timestamp r.timestamp = true) :
    cbFold cutoff pathPre inh iqp acc r = dictSet acc (cbKey iqp r) r := by
  simp [cbFold, hk, hg, hlt]

theorem cbFold_keep_ge (cutoff : Str) (pathPre : Option Str)
    (inh iqp : Bool) (acc : List (Str × Rec)) (r : Rec) (v : Rec)
    (hk : cbKeep cutoff pathPre inh r = true)
    (hg : dictGet acc (cbKey iqp r) = some v)
    (hlt : strLt v.timestamp r.timestamp = false) :
    cbFold cutoff pathPre inh iqp acc r = acc := by
  simp [cbFold, hk, hg, hlt]

theorem cbFold_inv (cutoff : Str) (pathPre : Option Str) (inh iqp : Bool) :
    ∀ (l processed : List Rec) (acc : List (Str × Rec)),
    (∀ kv ∈ acc, kv.1 = cbKey iqp kv.2 ∧ kv.2 ∈ processed ∧
       cbKeep cutoff pathPre inh kv.2 = true ∧
       ∀ r ∈ processed, cbKeep cutoff pathPre inh r = true →
         cbKey iqp r = kv.1 → strLe r.timestamp kv.2.timestamp = true) →
    ((acc.map Prod.fst).Nodup) →
    (∀ r ∈ processed, cbKeep cutoff pathPre inh r = true →
       (dictGet acc (cbKey iqp r)).isSome = true) →
    ((∀ kv ∈ l.foldl (cbFold cutoff pathPre inh iqp) acc,
        kv.1 = cbKey iqp kv.2 ∧ kv.2 ∈ processed ++ l ∧
        cbKeep cutoff pathPre inh kv.2 = true ∧
        ∀ r ∈ processed ++ l, cbKeep cutoff pathPre inh r = true →
          cbKey iqp r = kv.1 → strLe r.timestamp kv.2.timestamp = true) ∧
     (((l.foldl (cbFold cutoff pathPre inh iqp) acc).map Prod.fst).Nodup) ∧
     (∀ r ∈ processed ++ l, cbKeep cutoff pathPre inh r = true →
        (dictGet (l.foldl (cbFold cutoff pathPre inh iqp) acc)
          (cbKey iqp r)).isSome = true)) := by
  intro l
  induction l with
  | nil =>
    intro processed acc h1 h2 h3
    simp only [List.foldl_nil, List.append_nil]
    exact ⟨h1, h2, h3⟩
  | cons r l ih =>
    intro processed acc h1 h2 h3
    have hstep : ∀ acc', acc' = cbFold cutoff pathPre inh iqp acc r →
        (∀ kv ∈ acc', kv.1 = cbKey iqp kv.2 ∧ kv.2 ∈ processed ++ [r] ∧
          cbKeep cutoff pathPre inh kv.2 = true ∧
          ∀ r' ∈ processed ++ [r], cbKeep cutoff pathPre inh r' = true →
            cbKey iqp r' = kv.1 → strLe r'.timestamp kv.2.timestamp = true) ∧
        ((acc'.map Prod.fst).Nodup) ∧
        (∀ r' ∈ processed ++ [r], cbKeep cutoff pathPre inh r' = true →
          (dictGet acc' (cbKey iqp r')).isSome = true) := by
      intro acc' hacc'
      by_cases hk : cbKeep cutoff pathPre inh r = true
      · cases hg : dictGet acc (cbKey iqp r) with
        | none =>
          rw [cbFold_keep_none cutoff pathPre inh iqp acc r hk hg,
            dictSet_of_none acc _ r hg] at hacc'
          subst hacc'
          have hknotin : ∀ kv ∈ acc, kv.1 ≠ cbKey iqp r :=
            dictGet_none_forall acc _ hg
          refine ⟨?_, ?_, ?_⟩
          · intro kv hkv
            rcases List.mem_append.mp hkv with hm | hm
            · obtain ⟨hkey, hmem, hkeep, hmax⟩ := h1 kv hm
              refine ⟨hkey, List.mem_append_left _ hmem, hkeep, ?_⟩
              intro r' hr' hkeep' hkey'
              rcases List.mem_append.mp hr' with hr1 | hr1
              · exact hmax r' hr1 hkeep' hkey'
              · exfalso
                have : r' = r := by simpa using hr1
                subst this
                exact (hknotin kv hm) (hkey' ▸ rfl)
            · have : kv = (cbKey iqp r, r) := by simpa using hm
              subst this
              refine ⟨rfl, List.mem_append_right _ (by simp), hk, ?_⟩
              intro r' hr' hkeep' hkey'
              rcases List.mem_append.mp hr' with hr1 | hr1
              · exfalso
                have := h3 r' hr1 hkeep'
                rw [hkey', hg] at this
                cases this
              · have : r' = r := by simpa using hr1
                subst this
                exact strLe_refl _
          · rw [List.map_append]
            rw [List.nodup_append]
            refine ⟨h2, by simp, ?_⟩
            intro x hx hy
            simp only [List.map_cons, List.map_nil, List.mem_singleton] at hy
            subst hy
            obtain ⟨kv, hkv, hfst⟩ := List.mem_map.mp hx
            exact (hknotin kv hkv) hfst
          · intro r' hr' hkeep'
            rw [← dictSet_of_none acc _ r hg, dictGet_dictSet]
            by_cases he : cbKey iqp r = cbKey iqp r'
            · rw [if_pos he]; rfl
            · rw [if_neg he]
              rcases List.mem_append.mp hr' with hr1 | hr1
              · exact h3 r' hr1 hkeep'
              · exfalso
                have : r' = r := by simpa using hr1
                subst this
                exact he rfl
        | some v =>
          have hvmem : (cbKey iqp r, v) ∈ acc := dictGet_some_mem acc _ v hg
          obtain ⟨hvkey, hvmem', hvkeep, hvmax⟩ := h1 _ hvmem
          cases hlt : strLt v.timestamp r.timestamp with
          | true =>
            rw [cbFold_keep_lt cutoff pathPre inh iqp acc r v hk hg hlt]
              at hacc'
            subst hacc'
            refine ⟨?_, ?_, ?_⟩
            · intro kv hkv
              rcases mem_dictSet_nodup acc h2 _ r kv hkv with hm | hm
              · subst hm
                refine ⟨rfl, List.mem_append_right _ (by simp), hk, ?_⟩
                intro r' hr' hkeep' hkey'
                rcases List.mem_append.mp hr' with hr1 | hr1
                · have h5 := hvmax r' hr1 hkeep' hkey'
                  exact strLe_trans _ _ _ h5 (strLt_strLe _ _ hlt)
                · have : r' = r := by simpa using hr1
                  subst this
                  exact strLe_refl _
              · obtain ⟨hmem, hne⟩ := hm
                obtain ⟨hkey, hmem', hkeep, hmax⟩ := h1 kv hmem
                refine ⟨hkey, List.mem_append_left _ hmem', hkeep, ?_⟩
                intro r' hr' hkeep' hkey'
                rcases List.mem_append.mp hr' with hr1 | hr1
                · exact hmax r' hr1 hkeep' hkey'
                · exfalso
                  have : r' = r := by simpa using hr1
                  subst this
                  exact hne (hkey' ▸ rfl)
            · rw [keys_dictSet_some acc _ r v hg]
              exact h2
            · intro r' hr' hkeep'
              rw [dictGet_dictSet]
              by_cases he : cbKey iqp r = cbKey iqp r'
              · rw [if_pos he]; rfl
              · rw [if_neg he]
                rcases List.mem_append.mp hr' with hr1 | hr1
                · exact h3 r' hr1 hkeep'
                · exfalso
                  have : r' = r := by simpa using hr1
                  subst this
                  exact he rfl
          | false =>
            rw [cbFold_keep_ge cutoff pathPre inh iqp acc r v hk hg hlt]
              at hacc'
            rw [hacc']
            refine ⟨?_, h2, ?_⟩
            · intro kv hkv
              obtain ⟨hkey, hmem, hkeep, hmax⟩ := h1 kv hkv
              refine ⟨hkey, List.mem_append_left _ hmem, hkeep, ?_⟩
              intro r' hr' hkeep' hkey'
              rcases List.mem_append.mp hr' with hr1 | hr1
              · exact hmax r' hr1 hkeep' hkey'
              · have : r' = r := by simpa using hr1
                subst this
                have hkveq : dictGet acc kv.1 = some kv.2 :=
                  dictGet_of_mem_nodup acc h2 kv hkv
                rw [← hkey'] at hkveq
                rw [hg] at hkveq
                have : kv.2 = v := by cases hkveq; rfl
                rw [this]
                simp [strLe, hlt]
            · intro r' hr' hkeep'
              rcases List.mem_append.mp hr' with hr1 | hr1
              · exact h3 r' hr1 hkeep'
              · have : r' = r := by simpa using hr1
                subst this
                rw [hg]; rfl
      · rw [cbFold_not_keep cutoff pathPre inh iqp acc r hk] at hacc'
        rw [hacc']
        refine ⟨?_, h2, ?_⟩
        · intro kv hkv
          obtain ⟨hkey, hmem, hkeep, hmax⟩ := h1 kv hkv
          refine ⟨hkey, List.mem_append_left _ hmem, hkeep, ?_⟩
          intro r' hr' hkeep' hkey'
          rcases List.mem_append.mp hr' with hr1 | hr1
          · exact hmax r' hr1 hkeep' hkey'
          · exfalso
            have : r' = r := by simpa using hr1
            subst this
            exact hk hkeep'
        · intro r' hr' hkeep'
          rcases List.mem_append.mp hr' with hr1 | hr1
          · exact h3 r' hr1 hkeep'
          · exfalso
            have : r' = r := by simpa using hr1
            subst this
            exact hk hkeep'
    have hs := hstep (cbFold cutoff pathPre inh iqp acc r) rfl
    have hr := ih (processed ++ [r]) (cbFold cutoff pathPre inh iqp acc r)
      hs.1 hs.2.1 hs.2.2
    simp only [List.foldl_cons]
    rw [List.append_cons processed r l]
    exact hr

theorem latest_per_original_sound (records : List Rec) (cutoff : Str)
    (pathPre : Option Str) (inh iqp : Bool) :
    (List.Pairwise (fun a b => cbKey iqp a ≠ cbKey iqp b)
      (latest_per_original records cutoff pathPre inh iqp)) ∧
    ∀ o ∈ latest_per_original records cutoff pathPre inh iqp,
      o ∈ records ∧ cbKeep cutoff pathPre inh o = true ∧
      ∀ r ∈ records, cbKeep cutoff pathPre inh r = true →
        cbKey iqp r = cbKey iqp o → strLe r.timestamp o.timestamp = true := by
  have h := cbFold_inv cutoff pathPre inh iqp records [] []
    (by intro kv hkv; cases hkv) (by simp) (by intro r hr; cases hr)
  simp only [List.nil_append] at h
  obtain ⟨h1, h2, -⟩ := h
  constructor
  · have hmapeq :
        (records.foldl (cbFold cutoff pathPre inh iqp) []).map Prod.fst =
        (records.foldl (cbFold cutoff pathPre inh iqp) []).map
          (fun kv => cbKey iqp kv.2) :=
      List.map_congr_left (fun kv hkv => (h1 kv hkv).1)
    rw [hmapeq] at h2
    have h3 : List.Pairwise (fun kv kv' : Str × Rec =>
        cbKey iqp kv.2 ≠ cbKey iqp kv'.2)
        (records.foldl (cbFold cutoff pathPre inh iqp) []) :=
      (List.pairwise_map).mp h2
    unfold latest_per_original
    rw [List.pairwise_map]
    exact h3
  · intro o ho
    obtain ⟨kv, hkv, hsnd⟩ := List.mem_map.mp ho
    obtain ⟨hkey, hmem, hkeep, hmax⟩ := h1 kv hkv
    subst hsnd
    refine ⟨hmem, hkeep, ?_⟩
    intro r hr hk hke
    exact hmax r hr hk (hke.trans hkey.symm)

/-- **C1 (amended).** For every input record set, cutoff timestamp, and
configuration (path-prefix filter, non-HTML inclusion, query
normalization), the Candidate Builder's output contains at most one record
per key (the raw URL, or the query-stripped normalized URL when
normalization is on), and that record's timestamp is the maximum among all
same-key input records **that pass the builder's filters** (timestamp
present and ≤ cutoff, non-`robots.txt` path, path-prefix match when
configured, HTML-like mimetype unless non-HTML inclusion is on).  The
final hypothesis is the condition under which Python's `urlparse` does not
raise on any record's URL. -/
theorem C1_candidate_builder (records : List Rec) (cutoff : Str)
    (pathPre : Option Str) (inh iqp : Bool)
    (_hok : ∀ r ∈ records, urlsplitOk r.original = true) :
    List.Pairwise (fun a b => cbKey iqp a ≠ cbKey iqp b)
      (latest_per_original records cutoff pathPre inh iqp) ∧
    ∀ o ∈ latest_per_original records cutoff pathPre inh iqp,
      o ∈ records ∧ cbKeep cutoff pathPre inh o = true ∧
      ∀ r ∈ records, cbKeep cutoff pathPre inh r = true →
        cbKey iqp r = cbKey iqp o → strLe r.timestamp o.timestamp = true :=
  latest_per_original_sound records cutoff pathPre inh iqp

/-- Witness for C1 at a concrete input: two same-key HTML records below the
cutoff; the builder keeps exactly the newer one. -/
theorem C1_candidate_builder_witness :
    (∀ r ∈ [({ timestamp := pys "20200101000000",
                original := pys "http://example.com/a",
                mimetype := pys "text/html", statuscode := pys "200",
                digest := [], length := [] } : Rec),
             { timestamp := pys "20200202000000",
               original := pys "http://example.com/a",
               mimetype := pys "text/html", statuscode := pys "200",
               digest := [], length := [] }],
       urlsplitOk r.original = true) ∧
    (latest_per_original
        [{ timestamp := pys "20200101000000",
           original := pys "http://example.com/a",
           mimetype := pys "text/html", statuscode := pys "200",
           digest := [], length := [] },
         { timestamp := pys "20200202000000",
           original := pys "http://example.com/a",
           mimetype := pys "text/html", statuscode := pys "200",
           digest := [], length := [] }]
        (pys "20201231235959") none false false
      = [{ timestamp := pys "20200202000000",
           original := pys "http://example.com/a",
           mimetype := pys "text/html", statuscode := pys "200",
           digest := [], length := [] }]) ∧
    (List.Pairwise (fun a b => cbKey false a ≠ cbKey false b)
      (latest_per_original
        [{ timestamp := pys "20200101000000",
           original := pys "http://example.com/a",
           mimetype := pys "text/html", statuscode := pys "200",
           digest := [], length := [] },
         { timestamp := pys "20200202000000",
           original := pys "http://example.com/a",
           mimetype := pys "text/html", statuscode := pys "200",
           digest := [], length := [] }]
        (pys "20201231235959") none false false)) := by
  refine ⟨by decide, by decide, ?_⟩
  exact (C1_candidate_builder _ (pys "20201231235959") none false false
    (by decide)).1

/-- **C1 counterexample.** The claim as stated (maximum among *all*
same-key inputs with timestamp ≤ cutoff, regardless of the other filters)
fails: with non-HTML exclusion active, a same-key `image/png` record with a
larger timestamp ≤ cutoff is discarded, and the surviving candidate's
timestamp is not the maximum. -/
theorem C1_counterexample :
    latest_per_original
        [{ timestamp := pys "20200101000000",
           original := pys "http://example.com/a",
           mimetype := pys "text/html", statuscode := pys "200",
           digest := [], length := [] },
         { timestamp := pys "20210101000000",
           original := pys "http://example.com/a",
           mimetype := pys "image/png", statuscode := pys "200",
           digest := [], length := [] }]
        (pys "20211231235959") none false false
      = [{ timestamp := pys "20200101000000",
           original := pys "http://example.com/a",
           mimetype := pys "text/html", statuscode := pys "200",
           digest := [], length := [] }] ∧
    strLe (pys "20210101000000") (pys "20211231235959") = true ∧
    strLt (pys "20200101000000") (pys "20210101000000") = true := by
  refine ⟨by decide, by decide, by decide⟩

/-- **C5 (amended).** The Candidate Builder discards any record whose
timestamp is missing (empty) or string-greater than the cutoff, but
performs **no** 14-digit validation on record timestamps — a malformed
non-empty timestamp that compares ≤ cutoff is kept (see the
counterexample).  The exactly-14-digit validation (`to_ts_full`) applies
only to the CLI-supplied cutoff override. -/
theorem C5_timestamp_validation :
    (∀ (records : List Rec) (cutoff : Str) (pathPre : Option Str)
       (inh iqp : Bool),
      (∀ r ∈ records, urlsplitOk r.original = true) →
      ∀ o ∈ latest_per_original records cutoff pathPre inh iqp,
        o.timestamp ≠ [] ∧ strLe o.timestamp cutoff = true) ∧
    (∀ s : Str, to_ts_full s = some s ↔ isTs14 s = true) ∧
    (∀ s r : Str, to_ts_full s = some r → isTs14 r = true) := by
  refine ⟨?_, ?_, ?_⟩
  · intro records cutoff pathPre inh iqp _ o ho
    obtain ⟨-, hkeep, -⟩ :=
      (latest_per_original_sound records cutoff pathPre inh iqp).2 o ho
    simp only [cbKeep, Bool.and_eq_true] at hkeep
    obtain ⟨⟨⟨⟨-, hts, hle⟩, -⟩, -⟩, -⟩ := hkeep
    constructor
    · simpa using hts
    · exact hle
  · intro s
    constructor
    · intro h
      unfold to_ts_full at h
      by_cases hc : isTs14 s = true
      · exact hc
      · rw [if_neg (by simpa using hc)] at h; cases h
    · intro h
      unfold to_ts_full
      rw [if_pos (by simpa using h)]
  · intro s r h
    unfold to_ts_full at h
    by_cases hc : isTs14 s = true
    · rw [if_pos (by simpa using hc)] at h
      cases h
      exact hc
    · rw [if_neg (by simpa using hc)] at h; cases h

/-- Witness for C5 at a concrete input: a well-formed record below the
cutoff survives with a nonempty timestamp ≤ cutoff. -/
theorem C5_timestamp_validation_witness :
    (∀ r ∈ [({ timestamp := pys "20200101000000",
               original := pys "http://example.com/a",
               mimetype := pys "text/html", statuscode := pys "200",
               digest := [], length := [] } : Rec)],
       urlsplitOk r.original = true) ∧
    (∀ o ∈ latest_per_original
        [{ timestamp := pys "20200101000000",
           original := pys "http://example.com/a",
           mimetype := pys "text/html", statuscode := pys "200",
           digest := [], length := [] }]
        (pys "20201231235959") none false false,
      o.timestamp ≠ [] ∧ strLe o.timestamp (pys "20201231235959") = true) ∧
    (to_ts_full (pys "20200101235959") = some (pys "20200101235959") ↔
      isTs14 (pys "20200101235959") = true) :=
  ⟨by decide,
   C5_timestamp_validation.1 _ (pys "20201231235959") none false false
     (by decide),
   C5_timestamp_validation.2.1 _⟩

/-- **C5 counterexample.** A record with the malformed one-digit timestamp
`"1"` (not 14 digits) compares ≤ the cutoff and is *kept* by the Candidate
Builder: no 14-digit validation happens on record timestamps. -/
theorem C5_counterexample :
    latest_per_original
        [{ timestamp := pys "1",
           original := pys "http://example.com/a",
           mimetype := pys "text/html", statuscode := pys "200",
           digest := [], length := [] }]
        (pys "20200101235959") none false false
      = [{ timestamp := pys "1",
           original := pys "http://example.com/a",
           mimetype := pys "text/html", statuscode := pys "200",
           digest := [], length := [] }] ∧
    isTs14 (pys "1") = false := by
  exact ⟨by decide, by decide⟩

/-! ### Snapshot resolver lemmas -/

theorem fetch_id_eq (t : Transport) (ts original : Str) :
    fetch_id t ts original = Except.ok (fetchIdVal t ts original) := by
  unfold fetch_id fetchIdVal
  cases h : t Mode.identity ts original with
  | ok r => rfl
  | error e => cases e <;> rfl

theorem mem_insertDesc (r x : Rec) (l : List Rec) :
    x ∈ insertDesc r l ↔ x = r ∨ x ∈ l := by
  induction l with
  | nil => simp [insertDesc]
  | cons e es ih =>
    simp only [insertDesc]
    by_cases h : strLe e.timestamp r.timestamp = true
    · simp [h, List.mem_cons]
    · simp only [if_neg h, List.mem_cons, ih]
      tauto

theorem mem_sortDesc (x : Rec) (l : List Rec) :
    x ∈ sortDesc l ↔ x ∈ l := by
  induction l with
  | nil => simp [sortDesc]
  | cons e es ih =>
    simp only [sortDesc, mem_insertDesc, ih, List.mem_cons]

theorem pairwise_insertDesc (r : Rec) (l : List Rec)
    (h : List.Pairwise
      (fun a b => strLe b.timestamp a.timestamp = true) l) :
    List.Pairwise (fun a b => strLe b.timestamp a.timestamp = true)
      (insertDesc r l) := by
  induction l with
  | nil => simp [insertDesc]
  | cons e es ih =>
    simp only [insertDesc]
    rcases List.pairwise_cons.mp h with ⟨he, hes⟩
    by_cases hc : strLe e.timestamp r.timestamp = true
    · rw [if_pos hc]
      refine List.pairwise_cons.mpr ⟨?_, h⟩
      intro x hx
      rcases List.mem_cons.mp hx with hx | hx
      · subst hx; exact hc
      · exact strLe_trans _ _ _ (he x hx) hc
    · rw [if_neg hc]
      refine List.pairwise_cons.mpr ⟨?_, ih hes⟩
      intro x hx
      rcases (mem_insertDesc r x es).mp hx with hx | hx
      · show strLe x.timestamp e.timestamp = true
        rw [hx]
        have hlt : strLt r.timestamp e.timestamp = true := by
          simp only [strLe, Bool.not_eq_true'] at hc
          cases hh : strLt r.timestamp e.timestamp with
          | false => exact absurd hh (by simpa using hc)
          | true => rfl
        exact strLt_strLe _ _ hlt
      · exact he x hx

theorem pairwise_sortDesc (l : List Rec) :
    List.Pairwise (fun a b => strLe b.timestamp a.timestamp = true)
      (sortDesc l) := by
  induction l with
  | nil => simp [sortDesc]
  | cons e es ih => exact pairwise_insertDesc e (sortDesc es) ih

theorem pickBestLoop_cons (t : Transport) (inh : Bool) (r : Rec)
    (rest : List Rec) :
    pickBestLoop t inh (r :: rest) =
      if snapshotUsableResp inh (fetchIdVal t r.timestamp r.original) = true
      then Except.ok (some (r, (fetchIdVal t r.timestamp r.original).content))
      else pickBestLoop t inh rest := by
  simp only [pickBestLoop, fetch_id_eq t r.timestamp r.original]
  by_cases h1 : (fetchIdVal t r.timestamp r.original).status_code = 200
  · by_cases h2 : origin_ok (fetchIdVal t r.timestamp r.original) = true
    · by_cases h3 : inh = true
      · simp [snapshotUsableResp, h1, h2, h3]
      · by_cases h4 : looks_html (fetchIdVal t r.timestamp r.original) = true
        · simp [snapshotUsableResp, h1, h2, h3, h4]
        · simp [snapshotUsableResp, h1, h2, h3, h4]
    · simp [snapshotUsableResp, h1, h2]
  · simp [snapshotUsableResp, h1]

theorem pickBestLoop_spec (t : Transport) (inh : Bool) :
    ∀ l : List Rec,
    List.Pairwise (fun a b => strLe b.timestamp a.timestamp = true) l →
    (∀ r body, pickBestLoop t inh l = Except.ok (some (r, body)) →
       r ∈ l ∧ snapshotUsable t inh r = true ∧
       body = (fetchIdVal t r.timestamp r.original).content ∧
       ∀ r' ∈ l, snapshotUsable t inh r' = true →
         strLe r'.timestamp r.timestamp = true) ∧
    (pickBestLoop t inh l = Except.ok none ↔
       ∀ r ∈ l, snapshotUsable t inh r = false) ∧
    (∀ e, pickBestLoop t inh l ≠ Except.error e) := by
  intro l
  induction l with
  | nil =>
    intro _
    refine ⟨?_, ?_, ?_⟩
    · intro r body h; cases h
    · constructor
      · intro _ r hr; cases hr
      · intro _; rfl
    · intro e h; cases h
  | cons r rest ih =>
    intro hp
    rcases List.pairwise_cons.mp hp with ⟨hr, hrest⟩
    obtain ⟨ih1, ih2, ih3⟩ := ih hrest
    rw [pickBestLoop_cons]
    by_cases hu : snapshotUsableResp inh
        (fetchIdVal t r.timestamp r.original) = true
    · rw [if_pos hu]
      refine ⟨?_, ?_, ?_⟩
      · intro r' body h
        have h' : r' = r ∧
            body = (fetchIdVal t r.timestamp r.original).content := by
          cases h; exact ⟨rfl, rfl⟩
        obtain ⟨he, hb⟩ := h'
        subst he
        refine ⟨List.mem_cons_self _ _, hu, hb, ?_⟩
        intro r'' hr'' _
        rcases List.mem_cons.mp hr'' with h2 | h2
        · subst h2; exact strLe_refl _
        · exact hr r'' h2
      · constructor
        · intro h; cases h
        · intro h
          have := h r (List.mem_cons_self _ _)
          rw [snapshotUsable] at this
          rw [this] at hu
          cases hu
      · intro e h; cases h
    · rw [if_neg hu]
      refine ⟨?_, ?_, ?_⟩
      · intro r' body h
        obtain ⟨hmem, husable, hbody, hmax⟩ := ih1 r' body h
        refine ⟨List.mem_cons_of_mem _ hmem, husable, hbody, ?_⟩
        intro r'' hr'' hu''
        rcases List.mem_cons.mp hr'' with h2 | h2
        · subst h2
          rw [snapshotUsable] at hu''
          exact absurd hu'' hu
        · exact hmax r'' h2 hu''
      · constructor
        · intro h r' hr'
          rcases List.mem_cons.mp hr' with h2 | h2
          · subst h2
            rw [snapshotUsable]
            cases hh : snapshotUsableResp inh
                (fetchIdVal t r'.timestamp r'.original) with
            | false => rfl
            | true => exact absurd hh hu
          · exact (ih2.mp h) r' h2
        · intro h
          exact ih2.mpr (fun r' hr' => h r' (List.mem_cons_of_mem _ hr'))
      · exact ih3

/-- `origin_ok` never lets a parsed archive-reported original status code
outside `[200, 300)` through. -/
theorem origin_ok_parse (resp : Response) (h : origin_ok resp = true)
    (c : Int) (hc : parseOrigCode resp = some c) : 200 ≤ c ∧ c < 300 := by
  unfold origin_ok at h
  rw [hc] at h
  simpa using h

/-- **C2.** For every set of capture records, the Snapshot Resolver returns
a capture with the greatest timestamp among those classified usable —
usable meaning the outer HTTP status is 200, `origin_ok` holds (the
archive-reported original status, when its header parses, is in 200–299),
and, unless non-HTML content is allowed, the content type is HTML-like —
and in particular it never returns a capture whose archive-reported
original status header parses to a value outside 200–299, even when the
outer status is 200; if no capture is usable it returns nothing (and it
never raises). -/
theorem C2_snapshot_resolver (t : Transport) (records : List Rec)
    (inh : Bool) :
    (∀ r body,
      pick_best_snapshot t records inh = Except.ok (some (r, body)) →
      r ∈ records ∧ snapshotUsable t inh r = true ∧
      body = (fetchIdVal t r.timestamp r.original).content ∧
      (∀ r' ∈ records, snapshotUsable t inh r' = true →
        strLe r'.timestamp r.timestamp = true) ∧
      (∀ c, parseOrigCode (fetchIdVal t r.timestamp r.original) = some c →
        200 ≤ c ∧ c < 300)) ∧
    (pick_best_snapshot t records inh = Except.ok none ↔
      ∀ r ∈ records, snapshotUsable t inh r = false) ∧
    (∀ e, pick_best_snapshot t records inh ≠ Except.error e) := by
  obtain ⟨h1, h2, h3⟩ :=
    pickBestLoop_spec t inh (sortDesc records) (pairwise_sortDesc records)
  refine ⟨?_, ?_, ?_⟩
  · intro r body h
    obtain ⟨hmem, husable, hbody, hmax⟩ := h1 r body h
    refine ⟨(mem_sortDesc r records).mp hmem, husable, hbody, ?_, ?_⟩
    · intro r' hr' hu'
      exact hmax r' ((mem_sortDesc r' records).mpr hr') hu'
    · intro c hc
      have hok : origin_ok (fetchIdVal t r.timestamp r.original) = true := by
        rw [snapshotUsable, snapshotUsableResp] at husable
        simp only [Bool.and_eq_true] at husable
        exact husable.1.2
      exact origin_ok_parse _ hok c hc
  · constructor
    · intro h r hr
      exact (h2.mp h) r ((mem_sortDesc r records).mpr hr)
    · intro h
      exact h2.mpr (fun r hr => h r ((mem_sortDesc r records).mp hr))
  · exact h3

/-- Witness for C2 at a concrete input: two captures, the newer one with an
archive-reported original status `404` outer-200; the resolver skips it and
returns the older usable capture. -/
theorem C2_snapshot_resolver_witness :
    pick_best_snapshot
        (fun _ _ ts =>
          if ts = pys "http://example.com/" then
            (Except.ok
              { status_code := 200, orig_status := pys "404",
                content_type := pys "text/html", content := pys "NEW" }
              : Except PyExn Response)
          else
            Except.ok
              { status_code := 200, orig_status := pys "200 OK",
                content_type := pys "text/html", content := pys "OLD" })
        [{ timestamp := pys "20200101000000",
           original := pys "http://example.com/old",
           mimetype := pys "text/html", statuscode := pys "200",
           digest := [], length := [] },
         { timestamp := pys "20210101000000",
           original := pys "http://example.com/",
           mimetype := pys "text/html", statuscode := pys "200",
           digest := [], length := [] }]
        false
      = Except.ok (some
          ({ timestamp := pys "20200101000000",
             original := pys "http://example.com/old",
             mimetype := pys "text/html", statuscode := pys "200",
             digest := [], length := [] }, pys "OLD")) ∧
    (({ timestamp := pys "20200101000000",
        original := pys "http://example.com/old",
        mimetype := pys "text/html", statuscode := pys "200",
        digest := [], length := [] } : Rec) ∈
      [({ timestamp := pys "20200101000000",
          original := pys "http://example.com/old",
          mimetype := pys "text/html", statuscode := pys "200",
          digest := [], length := [] } : Rec),
       { timestamp := pys "20210101000000",
         original := pys "http://example.com/",
         mimetype := pys "text/html", statuscode := pys "200",
         digest := [], length := [] }]) := by
  have heval : pick_best_snapshot
      (fun _ _ ts =>
        if ts = pys "http://example.com/" then
          (Except.ok
            { status_code := 200, orig_status := pys "404",
              content_type := pys "text/html", content := pys "NEW" }
            : Except PyExn Response)
        else
          Except.ok
            { status_code := 200, orig_status := pys "200 OK",
              content_type := pys "text/html", content := pys "OLD" })
      [{ timestamp := pys "20200101000000",
         original := pys "http://example.com/old",
         mimetype := pys "text/html", statuscode := pys "200",
         digest := [], length := [] },
       { timestamp := pys "20210101000000",
         original := pys "http://example.com/",
         mimetype := pys "text/html", statuscode := pys "200",
         digest := [], length := [] }]
      false
    = Except.ok (some
        ({ timestamp := pys "20200101000000",
           original := pys "http://example.com/old",
           mimetype := pys "text/html", statuscode := pys "200",
           digest := [], length := [] }, pys "OLD")) := by rfl
  refine ⟨heval, ?_⟩
  exact ((C2_snapshot_resolver _ _ false).1 _ _ heval).1

/-! ### Capture Index Client lemmas -/

/-- **C8 (amended).** The helper `_cdx_multi_endpoint` does implement the
under-threshold retry: when the primary-endpoint rows (including the
implicit `matchType=prefix` pre-query) number fewer than 10, it reissues
the same query params against the alternate CDX endpoint address and
appends those rows; at or above the threshold it does not.  But it is dead
code: the enumeration the pipeline actually uses, `cdx_query_variants`,
only ever queries the primary CDX endpoint (and the availability API), so
its output is unchanged under any two oracles that agree on the primary
endpoint — no alternate-endpoint retry happens in the pipeline. -/
theorem C8_alternate_endpoint (o o' : CdxOracle) (A : AvailOracle)
    (params : List (Str × Str)) (domain cutoff_ts : Str)
    (subdomains : Bool) :
    (((if dictGet params (pys "matchType") = none then
          cdxFetch o (dictSet params (pys "matchType") (pys "prefix"))
            CdxEndpoint.cdx
        else []) ++ cdxFetch o params CdxEndpoint.cdx).length < 10 →
      cdx_multi_endpoint o params =
        ((if dictGet params (pys "matchType") = none then
            cdxFetch o (dictSet params (pys "matchType") (pys "prefix"))
              CdxEndpoint.cdx
          else []) ++ cdxFetch o params CdxEndpoint.cdx) ++
          cdxFetch o params CdxEndpoint.cdxAlternate) ∧
    (10 ≤ ((if dictGet params (pys "matchType") = none then
          cdxFetch o (dictSet params (pys "matchType") (pys "prefix"))
            CdxEndpoint.cdx
        else []) ++ cdxFetch o params CdxEndpoint.cdx).length →
      cdx_multi_endpoint o params =
        (if dictGet params (pys "matchType") = none then
            cdxFetch o (dictSet params (pys "matchType") (pys "prefix"))
              CdxEndpoint.cdx
          else []) ++ cdxFetch o params CdxEndpoint.cdx) ∧
    ((∀ p, o CdxEndpoint.cdx p = o' CdxEndpoint.cdx p) →
      cdx_query_variants o A domain cutoff_ts subdomains =
        cdx_query_variants o' A domain cutoff_ts subdomains) := by
  refine ⟨?_, ?_, ?_⟩
  · intro h
    unfold cdx_multi_endpoint
    rw [if_pos h]
  · intro h
    unfold cdx_multi_endpoint
    rw [if_neg (by omega)]
  · intro h
    unfold cdx_query_variants
    have : cdxAllUrls o domain subdomains = cdxAllUrls o' domain subdomains := by
      unfold cdxAllUrls
      exact List.foldl_ext _ _ []
        (fun acc d _ => by simp only [cdxFetch, h])
    rw [this]

/-- Witness for C8: an oracle whose primary endpoint is empty and whose
alternate endpoint has a row; the helper (if it were called) would merge
that row, and the pipeline enumeration is oracle-independent on the
alternate endpoint. -/
theorem C8_alternate_endpoint_witness :
    (((if dictGet cdxBaseParams (pys "matchType") = none then
          cdxFetch (fun e _ => match e with
            | CdxEndpoint.cdx => ([] : List Rec)
            | CdxEndpoint.cdxAlternate =>
              [{ timestamp := pys "20190101000000",
                 original := pys "http://example.com/alt",
                 mimetype := pys "text/html", statuscode := pys "200",
                 digest := [], length := [] }])
            (dictSet cdxBaseParams (pys "matchType") (pys "prefix"))
            CdxEndpoint.cdx
        else []) ++ cdxFetch (fun e _ => match e with
            | CdxEndpoint.cdx => ([] : List Rec)
            | CdxEndpoint.cdxAlternate =>
              [{ timestamp := pys "20190101000000",
                 original := pys "http://example.com/alt",
                 mimetype := pys "text/html", statuscode := pys "200",
                 digest := [], length := [] }]) cdxBaseParams
          CdxEndpoint.cdx).length < 10) ∧
    cdx_multi_endpoint (fun e _ => match e with
        | CdxEndpoint.cdx => ([] : List Rec)
        | CdxEndpoint.cdxAlternate =>
          [{ timestamp := pys "20190101000000",
             original := pys "http://example.com/alt",
             mimetype := pys "text/html", statuscode := pys "200",
             digest := [], length := [] }]) cdxBaseParams
      = [{ timestamp := pys "20190101000000",
           original := pys "http://example.com/alt",
           mimetype := pys "text/html", statuscode := pys "200",
           digest := [], length := [] }] := by
  constructor
  · decide
  · have h := (C8_alternate_endpoint (fun e _ => match e with
        | CdxEndpoint.cdx => ([] : List Rec)
        | CdxEndpoint.cdxAlternate =>
          [{ timestamp := pys "20190101000000",
             original := pys "http://example.com/alt",
             mimetype := pys "text/html", statuscode := pys "200",
             digest := [], length := [] }])
      (fun e _ => match e with
        | CdxEndpoint.cdx => ([] : List Rec)
        | CdxEndpoint.cdxAlternate =>
          [{ timestamp := pys "20190101000000",
             original := pys "http://example.com/alt",
             mimetype := pys "text/html", statuscode := pys "200",
             digest := [], length := [] }])
      (fun _ _ => Except.error ()) cdxBaseParams
      (pys "example.com") (pys "20200101235959") true).1 (by decide)
    rw [h]
    decide

/-- **C8 counterexample.** The claim says the enumeration used by the
pipeline reissues under-threshold queries against the alternate CDX
endpoint and merges the rows.  With an oracle whose primary endpoint
yields nothing (far below any threshold) and whose alternate endpoint
holds a row, the pipeline enumeration still returns nothing: the alternate
endpoint is never queried by `cdx_query_variants`; only the uncalled
helper `_cdx_multi_endpoint` would do so. -/
theorem C8_counterexample :
    cdx_query_variants (fun e _ => match e with
        | CdxEndpoint.cdx => ([] : List Rec)
        | CdxEndpoint.cdxAlternate =>
          [{ timestamp := pys "20190101000000",
             original := pys "http://example.com/alt",
             mimetype := pys "text/html", statuscode := pys "200",
             digest := [], length := [] }])
      (fun _ _ => Except.error ())
      (pys "example.com") (pys "20200101235959") true = [] ∧
    (fun (e : CdxEndpoint) (_ : List (Str × Str)) => match e with
        | CdxEndpoint.cdx => ([] : List Rec)
        | CdxEndpoint.cdxAlternate =>
          [{ timestamp := pys "20190101000000",
             original := pys "http://example.com/alt",
             mimetype := pys "text/html", statuscode := pys "200",
             digest := [], length := [] }])
      CdxEndpoint.cdxAlternate
      (dictSet cdxBaseParams (pys "url") (pys "example.com*")) ≠ [] := by
  constructor
  · rfl
  · decide

/-! ### CSS rewriting lemmas -/

theorem matchCssUrlAt_decomp (s : Str) (m : CssMatch) (rest : Str)
    (h : matchCssUrlAt s = some (m, rest)) :
    s = m.g0 ++ rest ∧ 0 < m.g0.length := by
  rcases s with _ | ⟨u, s1⟩
  · cases h
  rcases s1 with _ | ⟨r, s2⟩
  · cases h
  rcases s2 with _ | ⟨l, s3⟩
  · cases h
  rcases s3 with _ | ⟨p, rest0⟩
  · cases h
  simp only [matchCssUrlAt] at h
  by_cases hc : pyLowerChar u = 'u' ∧ pyLowerChar r = 'r' ∧
      pyLowerChar l = 'l' ∧ p = '('
  case neg => rw [if_neg hc] at h; cases h
  rw [if_pos hc] at h
  have hws1 := List.takeWhile_append_dropWhile pyIsSpace rest0
  cases h1 : rest0.dropWhile pyIsSpace with
  | nil => rw [h1] at h; cases h
  | cons c rest2 =>
    rw [h1] at h hws1
    dsimp only at h
    by_cases hq : c = '\'' ∨ c = '"'
    · rw [if_pos hq] at h
      by_cases hinner : rest2.takeWhile cssInnerChar = []
      · rw [if_pos hinner] at h; cases h
      rw [if_neg hinner] at h
      have hin2 := List.takeWhile_append_dropWhile cssInnerChar rest2
      cases h3 : rest2.dropWhile cssInnerChar with
      | nil => rw [h3] at h; cases h
      | cons c2 rest4 =>
        rw [h3] at h hin2
        dsimp only at h
        by_cases hc2 : c2 = c
        case neg => rw [if_neg hc2] at h; cases h
        subst hc2
        rw [if_pos rfl] at h
        have hws2 := List.takeWhile_append_dropWhile pyIsSpace rest4
        cases h5 : rest4.dropWhile pyIsSpace with
        | nil => rw [h5] at h; cases h
        | cons c3 rest6 =>
          rw [h5] at h hws2
          dsimp only at h
          by_cases hc3 : c3 = ')'
          case neg => rw [if_neg hc3] at h; cases h
          subst hc3
          rw [if_pos rfl] at h
          injection h with h2
          simp only [Prod.mk.injEq] at h2
          obtain ⟨hm, hr⟩ := h2
          subst hm
          subst hr
          constructor
          · rw [← hws2] at hin2
            rw [← hin2] at hws1
            conv_lhs => rw [← hws1]
            simp [List.append_assoc]
          · simp
    · rw [if_neg hq] at h
      by_cases hinner : (c :: rest2).takeWhile cssInnerChar = []
      · rw [if_pos hinner] at h; cases h
      rw [if_neg hinner] at h
      have hin2 := List.takeWhile_append_dropWhile cssInnerChar (c :: rest2)
      cases h3 : (c :: rest2).dropWhile cssInnerChar with
      | nil => rw [h3] at h; cases h
      | cons c2 rest4 =>
        rw [h3] at h hin2
        dsimp only at h
        by_cases hc2 : c2 = ')'
        case neg => rw [if_neg hc2] at h; cases h
        subst hc2
        rw [if_pos rfl] at h
        injection h with h2
        simp only [Prod.mk.injEq] at h2
        obtain ⟨hm, hr⟩ := h2
        subst hm
        subst hr
        constructor
        · rw [← hin2] at hws1
          conv_lhs => rw [← hws1]
          simp [List.append_assoc]
        · simp

theorem findCssMatch_decomp (s : Str) (pre : Str) (m : CssMatch)
    (after : Str) (h : findCssMatch s = some (pre, m, after)) :
    s = pre ++ m.g0 ++ after ∧ 0 < m.g0.length := by
  induction s generalizing pre with
  | nil => cases h
  | cons c rest ih =>
    simp only [findCssMatch] at h
    cases h1 : matchCssUrlAt (c :: rest) with
    | some p =>
      rw [h1] at h
      obtain ⟨mm, rr⟩ := p
      obtain ⟨hs, hlen⟩ := matchCssUrlAt_decomp (c :: rest) mm rr h1
      injection h with h2
      simp only [Prod.mk.injEq] at h2
      obtain ⟨hp, hm, hr⟩ := h2
      subst hp; subst hm; subst hr
      simpa using ⟨hs, hlen⟩
    | none =>
      rw [h1] at h
      cases h2 : findCssMatch rest with
      | none => rw [h2] at h; cases h
      | some q =>
        rw [h2] at h
        obtain ⟨pre', m', after'⟩ := q
        injection h with h3
        simp only [Prod.mk.injEq] at h3
        obtain ⟨hp, hm, hr⟩ := h3
        subst hm; subst hr
        obtain ⟨hs, hlen⟩ := ih pre' h2
        subst hp
        constructor
        · simp only [List.cons_append, List.append_assoc] at hs ⊢
          rw [← hs]
        · exact hlen

theorem findCssMatch_after_lt (s : Str) (pre : Str) (m : CssMatch)
    (after : Str) (h : findCssMatch s = some (pre, m, after)) :
    after.length < s.length := by
  obtain ⟨hs, hlen⟩ := findCssMatch_decomp s pre m after h
  rw [hs]
  simp only [List.length_append]
  omega

theorem cssSubAux_fuel (f : CssMatch → Str) :
    ∀ (n : Nat) (s : Str), s.length ≤ n →
      cssSubAux f n s = cssSubAux f s.length s := by
  intro n
  induction n using Nat.strong_induction_on with
  | _ n ih =>
    intro s hs
    cases n with
    | zero =>
      have : s = [] := List.eq_nil_of_length_eq_zero (Nat.le_zero.mp hs)
      subst this
      rfl
    | succ n' =>
      cases hfind : findCssMatch s with
      | none =>
        cases hl : s.length with
        | zero => simp [cssSubAux, hfind]
        | succ k => simp [cssSubAux, hfind]
      | some q =>
        obtain ⟨pre, m, after⟩ := q
        have hlt := findCssMatch_after_lt s pre m after hfind
        cases hl : s.length with
        | zero =>
          exfalso
          have : s = [] := List.eq_nil_of_length_eq_zero hl
          subst this
          cases hfind
        | succ k =>
          simp only [cssSubAux, hfind]
          have h1 : cssSubAux f n' after = cssSubAux f after.length after :=
            ih n' (by omega) after (by omega)
          have h2 : cssSubAux f k after = cssSubAux f after.length after :=
            ih k (by omega) after (by omega)
          rw [h1, h2]

theorem cssSub_none (f : CssMatch → Str) (s : Str)
    (h : findCssMatch s = none) : cssSub f s = s := by
  unfold cssSub
  cases hl : s.length with
  | zero => rfl
  | succ k => simp [cssSubAux, h]

theorem cssSub_step (f : CssMatch → Str) (s pre after : Str) (m : CssMatch)
    (h : findCssMatch s = some (pre, m, after)) :
    cssSub f s = pre ++ f m ++ cssSub f after := by
  unfold cssSub
  have hlt := findCssMatch_after_lt s pre m after h
  cases hl : s.length with
  | zero =>
    exfalso
    have : s = [] := List.eq_nil_of_length_eq_zero hl
    subst this
    cases h
  | succ k =>
    simp only [cssSubAux, h]
    rw [cssSubAux_fuel f k after (by omega)]

/-- **C6 (amended).** For every stylesheet text, base URL, root host and
CSS output directory: scanning left to right, every `url(...)` occurrence
(`findCssMatch`) is replaced by `cssRepl` with the surrounding text
untouched; a `data:` or pure-fragment target is left exactly as matched
(original quoting included); a same-site target is replaced by
`url(<path of the target's deterministic local path relative to the CSS
output directory>)`; and every other (cross-host) reference keeps its URL
**but is rewritten in unquoted, whitespace-stripped form** `url(<raw>)` —
the original quoting is *not* preserved (see the counterexample). -/
theorem C6_css_url_rewriting (cwd : List Str)
    (base_url root_host out_css_dir : Str) (css pre after : Str)
    (m : CssMatch) :
    (findCssMatch css = none →
      rewrite_css_urls cwd css base_url root_host out_css_dir = css) ∧
    (findCssMatch css = some (pre, m, after) →
      rewrite_css_urls cwd css base_url root_host out_css_dir =
        pre ++ cssRepl cwd base_url root_host out_css_dir m ++
          rewrite_css_urls cwd after base_url root_host out_css_dir) ∧
    ((pyStartsWith (pys "data:") (pyStrip m.inner) = true ∨
      pyStartsWith (pys "#") (pyStrip m.inner) = true) →
      cssRepl cwd base_url root_host out_css_dir m = m.g0) ∧
    (¬ (pyStartsWith (pys "data:") (pyStrip m.inner) = true ∨
        pyStartsWith (pys "#") (pyStrip m.inner) = true) →
      is_same_site (urljoin base_url (pyStrip m.inner)) root_host = true →
      cssRepl cwd base_url root_host out_css_dir m =
        pys "url(" ++
          relpathCwd cwd
            (ensure_local_path
              (urlparse (urljoin base_url (pyStrip m.inner)) []).path)
            out_css_dir ++ [')']) ∧
    (¬ (pyStartsWith (pys "data:") (pyStrip m.inner) = true ∨
        pyStartsWith (pys "#") (pyStrip m.inner) = true) →
      is_same_site (urljoin base_url (pyStrip m.inner)) root_host = false →
      cssRepl cwd base_url root_host out_css_dir m =
        pys "url(" ++ pyStrip m.inner ++ [')']) := by
  refine ⟨?_, ?_, ?_, ?_, ?_⟩
  · intro h
    exact cssSub_none _ css h
  · intro h
    exact cssSub_step _ css pre after m h
  · intro h
    unfold cssRepl
    rw [if_pos h]
  · intro h hs
    unfold cssRepl
    rw [if_neg h, if_pos hs]
  · intro h hs
    unfold cssRepl
    rw [if_neg h, if_neg (by simp [hs])]

/-- Witness for C6 at a concrete stylesheet: one unquoted same-site
occurrence between untouched text. -/
theorem C6_css_url_rewriting_witness :
    (findCssMatch (pys "body\x7bbackground:url(/img/a.png)\x7d") =
      some (pys "body\x7bbackground:",
        ⟨pys "url(/img/a.png)", [], pys "/img/a.png"⟩, pys "\x7d")) ∧
    (rewrite_css_urls [pys "srv"] (pys "body\x7bbackground:url(/img/a.png)\x7d")
        (pys "http://example.com/assets/site.css") (pys "example.com")
        (pys "example.com_20200101/assets") =
      pys "body\x7bbackground:" ++
        cssRepl [pys "srv"] (pys "http://example.com/assets/site.css")
          (pys "example.com") (pys "example.com_20200101/assets")
          ⟨pys "url(/img/a.png)", [], pys "/img/a.png"⟩ ++
        rewrite_css_urls [pys "srv"] (pys "\x7d")
          (pys "http://example.com/assets/site.css") (pys "example.com")
          (pys "example.com_20200101/assets")) ∧
    (is_same_site
        (urljoin (pys "http://example.com/assets/site.css")
          (pyStrip (pys "/img/a.png"))) (pys "example.com") = true) ∧
    (cssRepl [pys "srv"] (pys "http://example.com/assets/site.css")
        (pys "example.com") (pys "example.com_20200101/assets")
        ⟨pys "url(/img/a.png)", [], pys "/img/a.png"⟩ =
      pys "url(" ++
        relpathCwd [pys "srv"]
          (ensure_local_path
            (urlparse
              (urljoin (pys "http://example.com/assets/site.css")
                (pyStrip (pys "/img/a.png"))) []).path)
          (pys "example.com_20200101/assets") ++ [')']) := by
  have hfind : findCssMatch (pys "body\x7bbackground:url(/img/a.png)\x7d") =
      some (pys "body\x7bbackground:",
        ⟨pys "url(/img/a.png)", [], pys "/img/a.png"⟩, pys "\x7d") := by decide
  have hns : ¬ (pyStartsWith (pys "data:")
        (pyStrip (pys "/img/a.png")) = true ∨
      pyStartsWith (pys "#") (pyStrip (pys "/img/a.png")) = true) := by
    decide
  have hss : is_same_site
      (urljoin (pys "http://example.com/assets/site.css")
        (pyStrip (pys "/img/a.png"))) (pys "example.com") = true := by
    decide
  refine ⟨hfind, ?_, hss, ?_⟩
  · exact (C6_css_url_rewriting [pys "srv"]
      (pys "http://example.com/assets/site.css") (pys "example.com")
      (pys "example.com_20200101/assets")
      (pys "body\x7bbackground:url(/img/a.png)\x7d") (pys "body\x7bbackground:")
      (pys "\x7d") ⟨pys "url(/img/a.png)", [], pys "/img/a.png"⟩).2.1 hfind
  · exact (C6_css_url_rewriting [pys "srv"]
      (pys "http://example.com/assets/site.css") (pys "example.com")
      (pys "example.com_20200101/assets")
      (pys "body\x7bbackground:url(/img/a.png)\x7d") (pys "body\x7bbackground:")
      (pys "\x7d") ⟨pys "url(/img/a.png)", [], pys "/img/a.png"⟩).2.2.2.1
      hns hss

/-- **C6 counterexample.** The claim says third-party references are left
unchanged *including their original quoting*; the code rebuilds them as
`url(<raw>)`, dropping the quotes: a single-quoted cross-host reference
comes back unquoted, so the stylesheet text changes. -/
theorem C6_counterexample :
    rewrite_css_urls [] (pys "url('http://other-host.example/x.png')")
        (pys "http://example.com/a.css") (pys "example.com")
        (pys "example.com_20200101") =
      pys "url(http://other-host.example/x.png)" ∧
    pys "url(http://other-host.example/x.png)" ≠
      pys "url('http://other-host.example/x.png')" := by
  exact ⟨by decide, by decide⟩

/-! ### Path algebra lemmas for C4 -/

/-- A normalized path component: nonempty, not `.` and not `..`. -/
def normalSeg (s : Str) : Prop := s ≠ [] ∧ s ≠ pys "." ∧ s ≠ pys ".."

theorem pySplitAllAux_no_sep (c : Char) :
    ∀ (x : Str), c ∉ x → ∀ (rest acc : Str),
      pySplitAllAux c (x ++ rest) acc = pySplitAllAux c rest (x.reverse ++ acc) := by
  intro x
  induction x with
  | nil => intro _ rest acc; simp
  | cons a t ih =>
    intro hx rest acc
    have ha : a ≠ c := fun h => hx (h ▸ List.mem_cons_self a t)
    have ht : c ∉ t := fun h => hx (List.mem_cons_of_mem a h)
    simp only [List.cons_append, pySplitAllAux, if_neg ha, List.append_eq]
    rw [ih ht rest (a :: acc)]
    simp

theorem splitSlash_no_slash (x : Str) (h : '/' ∉ x) :
    splitSlash x = [x] := by
  unfold splitSlash pySplitAll
  have := pySplitAllAux_no_sep '/' x h [] []
  simp only [List.append_nil] at this
  rw [this]
  simp [pySplitAllAux]

theorem splitSlash_sep (x : Str) (t : Str) (h : '/' ∉ x) :
    splitSlash (x ++ '/' :: t) = x :: splitSlash t := by
  unfold splitSlash pySplitAll
  rw [pySplitAllAux_no_sep '/' x h ('/' :: t) []]
  simp [pySplitAllAux]

theorem splitSlash_joinSlash (l : List Str) (hne : l ≠ [])
    (h : ∀ x ∈ l, '/' ∉ x) : splitSlash (joinSlash l) = l := by
  induction l with
  | nil => exact absurd rfl hne
  | cons x t ih =>
    cases t with
    | nil =>
      simp only [joinSlash, List.intersperse_single, List.flatten,
        List.append_nil]
      exact splitSlash_no_slash x (h x (List.mem_cons_self _ _))
    | cons y t' =>
      have hx : '/' ∉ x := h x (List.mem_cons_self _ _)
      have hjoin : joinSlash (x :: y :: t') =
          x ++ '/' :: joinSlash (y :: t') := by
        simp [joinSlash, List.intersperse_cons_cons, pys]
      rw [hjoin, splitSlash_sep x _ hx,
        ih (by simp) (fun z hz => h z (List.mem_cons_of_mem _ hz))]

theorem commonPrefixLen_append (c a b : List Str) :
    commonPrefixLen (c ++ a) (c ++ b) = c.length + commonPrefixLen a b := by
  induction c with
  | nil => simp
  | cons x t ih =>
    have hstep : commonPrefixLen (x :: t ++ a) (x :: t ++ b) =
        commonPrefixLen (t ++ a) (t ++ b) + 1 := by
      simp [commonPrefixLen]
    rw [hstep, ih]
    simp only [List.length_cons]
    omega

theorem commonPrefixLen_le_left (a b : List Str) :
    commonPrefixLen a b ≤ a.length := by
  induction a generalizing b with
  | nil => simp [commonPrefixLen]
  | cons x t ih =>
    cases b with
    | nil => simp [commonPrefixLen]
    | cons y s =>
      simp only [commonPrefixLen]
      by_cases h : x = y
      · rw [if_pos h]
        simp only [List.length_cons]
        have := ih s
        omega
      · rw [if_neg h]
        simp

theorem commonPrefixLen_le_right (a b : List Str) :
    commonPrefixLen a b ≤ b.length := by
  induction a generalizing b with
  | nil => simp [commonPrefixLen]
  | cons x t ih =>
    cases b with
    | nil => simp [commonPrefixLen]
    | cons y s =>
      simp only [commonPrefixLen]
      by_cases h : x = y
      · rw [if_pos h]
        simp only [List.length_cons]
        have := ih s
        omega
      · rw [if_neg h]
        simp

theorem take_commonPrefixLen_eq (a b : List Str) :
    a.take (commonPrefixLen a b) = b.take (commonPrefixLen a b) := by
  induction a generalizing b with
  | nil => simp [commonPrefixLen]
  | cons x t ih =>
    cases b with
    | nil => simp [commonPrefixLen]
    | cons y s =>
      simp only [commonPrefixLen]
      by_cases h : x = y
      · rw [if_pos h]
        simp only [List.take_succ_cons, h, ih s]
      · rw [if_neg h]
        simp

theorem pushSeg_skip (b : Bool) (acc : List Str) (s : Str)
    (h : s = [] ∨ s = pys ".") : pushSeg b acc s = acc := by
  simp [pushSeg, h]

theorem pushSeg_normal (b : Bool) (acc : List Str) (s : Str)
    (h : normalSeg s) : pushSeg b acc s = s :: acc := by
  obtain ⟨h1, h2, h3⟩ := h
  simp [pushSeg, h1, h2, h3]

theorem pushSeg_dotdot_pop (b : Bool) (a : Str) (rest : List Str)
    (ha : a ≠ pys "..") : pushSeg b (a :: rest) (pys "..") = rest := by
  unfold pushSeg
  rw [if_neg (by decide), if_pos rfl]
  dsimp only
  rw [if_neg (fun hh => ha hh.2)]

theorem pushSeg_mem (b : Bool) (acc : List Str) (s x : Str)
    (h : x ∈ pushSeg b acc s) : x ∈ acc ∨ x = s := by
  unfold pushSeg at h
  by_cases h1 : s = [] ∨ s = pys "."
  · rw [if_pos h1] at h; exact Or.inl h
  rw [if_neg h1] at h
  by_cases h2 : s = pys ".."
  · rw [if_pos h2] at h
    cases acc with
    | nil =>
      dsimp only at h
      cases b with
      | true =>
        rw [if_pos rfl] at h
        cases h
      | false =>
        rw [if_neg (by decide)] at h
        simp only [List.mem_singleton] at h
        exact Or.inr (h.trans h2.symm)
    | cons a rest =>
      dsimp only at h
      by_cases h3 : ¬ b = true ∧ a = pys ".."
      · rw [if_pos h3] at h
        rcases List.mem_cons.mp h with hh | hh
        · exact Or.inr hh
        · exact Or.inl hh
      · rw [if_neg h3] at h
        exact Or.inl (List.mem_cons_of_mem _ h)
  · rw [if_neg h2] at h
    rcases List.mem_cons.mp h with hh | hh
    · exact Or.inr hh
    · exact Or.inl hh

theorem pushSeg_ne (b : Bool) (acc : List Str) (s : Str)
    (hacc : ∀ x ∈ acc, x ≠ [] ∧ x ≠ pys ".") :
    ∀ x ∈ pushSeg b acc s, x ≠ [] ∧ x ≠ pys "." := by
  intro x hx
  unfold pushSeg at hx
  by_cases h1 : s = [] ∨ s = pys "."
  · rw [if_pos h1] at hx; exact hacc x hx
  rw [if_neg h1] at hx
  by_cases h2 : s = pys ".."
  · rw [if_pos h2] at hx
    cases acc with
    | nil =>
      dsimp only at hx
      cases b with
      | true =>
        rw [if_pos rfl] at hx
        cases hx
      | false =>
        rw [if_neg (by decide)] at hx
        simp only [List.mem_singleton] at hx
        subst hx
        exact ⟨by decide, by decide⟩
    | cons a rest =>
      dsimp only at hx
      by_cases h3 : ¬ b = true ∧ a = pys ".."
      · rw [if_pos h3] at hx
        rcases List.mem_cons.mp hx with hh | hh
        · subst hh
          rw [h2]
          exact ⟨by decide, by decide⟩
        · exact hacc x hh
      · rw [if_neg h3] at hx
        exact hacc x (List.mem_cons_of_mem _ hx)
  · rw [if_neg h2] at hx
    rcases List.mem_cons.mp hx with hh | hh
    · subst hh
      push_neg at h1
      exact h1
    · exact hacc x hh

theorem foldl_pushSeg_mem (b : Bool) :
    ∀ (X : List Str) (acc : List Str) (x : Str),
      x ∈ X.foldl (pushSeg b) acc → x ∈ acc ∨ x ∈ X := by
  intro X
  induction X with
  | nil => intro acc x h; exact Or.inl h
  | cons s t ih =>
    intro acc x h
    simp only [List.foldl_cons] at h
    rcases ih (pushSeg b acc s) x h with hh | hh
    · rcases pushSeg_mem b acc s x hh with h2 | h2
      · exact Or.inl h2
      · exact Or.inr (h2 ▸ List.mem_cons_self _ _)
    · exact Or.inr (List.mem_cons_of_mem _ hh)

theorem foldl_pushSeg_ne (b : Bool) :
    ∀ (X : List Str) (acc : List Str),
      (∀ x ∈ acc, x ≠ [] ∧ x ≠ pys ".") →
      ∀ x ∈ X.foldl (pushSeg b) acc, x ≠ [] ∧ x ≠ pys "." := by
  intro X
  induction X with
  | nil => intro acc h; exact h
  | cons s t ih =>
    intro acc h
    simp only [List.foldl_cons]
    exact ih (pushSeg b acc s) (pushSeg_ne b acc s h)

theorem dotdot_mem_pushSeg (acc : List Str) (x : Str)
    (h : pys ".." ∈ acc) : pys ".." ∈ pushSeg false acc x := by
  unfold pushSeg
  by_cases h1 : x = [] ∨ x = pys "."
  · rw [if_pos h1]; exact h
  rw [if_neg h1]
  by_cases h2 : x = pys ".."
  · rw [if_pos h2]
    cases acc with
    | nil => cases h
    | cons a rest =>
      dsimp only
      by_cases h3 : a = pys ".."
      · rw [if_pos ⟨by decide, h3⟩]
        exact List.mem_cons_of_mem _ h
      · rw [if_neg (fun hh => h3 hh.2)]
        rcases List.mem_cons.mp h with hh | hh
        · exact absurd hh.symm h3
        · exact hh
  · rw [if_neg h2]
    exact List.mem_cons_of_mem _ h

theorem dotdot_persists :
    ∀ (X : List Str) (acc : List Str), pys ".." ∈ acc →
      pys ".." ∈ X.foldl (pushSeg false) acc := by
  intro X
  induction X with
  | nil => intro acc h; exact h
  | cons x t ih =>
    intro acc h
    simp only [List.foldl_cons]
    exact ih _ (dotdot_mem_pushSeg acc x h)

theorem pushSeg_mirror :
    ∀ (X : List Str) (A B : List Str) (b : Bool),
      (∀ s ∈ A, normalSeg s) →
      (pys ".." ∉ X.foldl (pushSeg false) A) →
      X.foldl (pushSeg b) (A ++ B) = X.foldl (pushSeg false) A ++ B := by
  intro X
  induction X with
  | nil => intro A B b _ _; rfl
  | cons x t ih =>
    intro A B b hA hno
    simp only [List.foldl_cons] at hno ⊢
    by_cases h1 : x = [] ∨ x = pys "."
    · rw [pushSeg_skip false A x h1] at hno
      rw [pushSeg_skip b (A ++ B) x h1, pushSeg_skip false A x h1]
      exact ih A B b hA hno
    by_cases h2 : x = pys ".."
    · subst h2
      cases A with
      | nil =>
        exfalso
        apply hno
        have e1 : pushSeg false [] (pys "..") = [pys ".."] := by decide
        rw [e1]
        exact dotdot_persists t [pys ".."] (List.mem_cons_self _ _)
      | cons a rest =>
        have ha : a ≠ pys ".." := (hA a (List.mem_cons_self _ _)).2.2
        rw [pushSeg_dotdot_pop false a rest ha] at hno
        rw [pushSeg_dotdot_pop false a rest ha]
        have e2 : pushSeg b ((a :: rest) ++ B) (pys "..") = rest ++ B :=
          pushSeg_dotdot_pop b a (rest ++ B) ha
        rw [List.cons_append] at e2 ⊢
        rw [e2]
        exact ih rest B b (fun s hs => hA s (List.mem_cons_of_mem _ hs)) hno
    · have hn : normalSeg x := by
        push_neg at h1
        exact ⟨h1.1, h1.2, h2⟩
      rw [pushSeg_normal false A x hn] at hno
      rw [pushSeg_normal b (A ++ B) x hn, pushSeg_normal false A x hn]
      have : x :: (A ++ B) = (x :: A) ++ B := rfl
      rw [this]
      exact ih (x :: A) B b
        (fun s hs => by
          rcases List.mem_cons.mp hs with hh | hh
          · exact hh ▸ hn
          · exact hA s hh) hno

theorem foldl_pushSeg_normal (b : Bool) :
    ∀ (C : List Str) (acc : List Str), (∀ s ∈ C, normalSeg s) →
      C.foldl (pushSeg b) acc = C.reverse ++ acc := by
  intro C
  induction C with
  | nil => intro acc _; rfl
  | cons x t ih =>
    intro acc h
    simp only [List.foldl_cons]
    rw [pushSeg_normal b acc x (h x (List.mem_cons_self _ _)),
      ih (x :: acc) (fun s hs => h s (List.mem_cons_of_mem _ hs))]
    simp

theorem foldl_pushSeg_drop :
    ∀ (k : Nat) (T : List Str), (∀ s ∈ T, normalSeg s) → k ≤ T.length →
      (List.replicate k (pys "..")).foldl (pushSeg false) T = T.drop k := by
  intro k
  induction k with
  | zero => intro T _ _; simp
  | succ k ih =>
    intro T hT hk
    cases T with
    | nil => simp at hk
    | cons a rest =>
      simp only [List.replicate_succ, List.foldl_cons]
      have ha : a ≠ pys ".." := (hT a (List.mem_cons_self _ _)).2.2
      rw [pushSeg_dotdot_pop false a rest ha]
      rw [ih rest (fun s hs => hT s (List.mem_cons_of_mem _ hs))
        (by simpa using hk)]
      rfl

/-- `normpath` of `cwd ++ X` (absolute) is `cwd` followed by the relative
normalization of `X`, provided that normalization does not escape upward. -/
theorem normAbs_cwd (cwd : List Str) (X : List Str) (hcwd : cwdOk cwd)
    (hno : pys ".." ∉ normRelSegs X) :
    normAbsSegs (cwd ++ X) = cwd ++ normRelSegs X := by
  unfold normAbsSegs
  rw [List.foldl_append]
  have hcwd' : ∀ s ∈ cwd, normalSeg s := fun s hs => hcwd s hs
  have h1 : cwd.foldl (pushSeg true) [] = cwd.reverse ++ [] :=
    foldl_pushSeg_normal true cwd [] hcwd'
  rw [h1, List.append_nil]
  have hno' : pys ".." ∉ X.foldl (pushSeg false) [] := by
    intro h
    apply hno
    unfold normRelSegs
    exact List.mem_reverse.mpr h
  have h2 := pushSeg_mirror X [] cwd.reverse true
    (fun s hs => absurd hs (List.not_mem_nil s)) hno'
  simp only [List.nil_append] at h2
  rw [h2]
  unfold normRelSegs
  simp [List.reverse_append]

theorem pySplitAllAux_no_sep_mem (c : Char) :
    ∀ (s : Str) (acc : Str) (x : Str), (∀ ch ∈ acc, ch ≠ c) →
      x ∈ pySplitAllAux c s acc → c ∉ x := by
  intro s
  induction s with
  | nil =>
    intro acc x hacc hx
    simp only [pySplitAllAux, List.mem_singleton] at hx
    subst hx
    intro hc
    exact hacc c (List.mem_reverse.mp hc) rfl
  | cons a t ih =>
    intro acc x hacc hx
    simp only [pySplitAllAux] at hx
    by_cases ha : a = c
    · rw [if_pos ha] at hx
      rcases List.mem_cons.mp hx with hh | hh
      · subst hh
        intro hc
        exact hacc c (List.mem_reverse.mp hc) rfl
      · exact ih [] x (fun ch hch => absurd hch (List.not_mem_nil ch)) hh
    · rw [if_neg ha] at hx
      refine ih (a :: acc) x ?_ hx
      intro ch hch
      rcases List.mem_cons.mp hch with hh | hh
      · exact hh ▸ ha
      · exact hacc ch hh

theorem splitSlash_mem_no_slash (p : Str) :
    ∀ x ∈ splitSlash p, '/' ∉ x := by
  intro x hx
  exact pySplitAllAux_no_sep_mem '/' p [] x
    (fun ch hch => absurd hch (List.not_mem_nil ch)) hx

theorem normRel_mem_src (X : List Str) :
    ∀ s ∈ normRelSegs X, s ∈ X := by
  intro s hs
  unfold normRelSegs at hs
  rcases foldl_pushSeg_mem false X [] s (List.mem_reverse.mp hs) with h | h
  · cases h
  · exact h

theorem normRel_mem_normal (X : List Str)
    (hno : pys ".." ∉ normRelSegs X) :
    ∀ s ∈ normRelSegs X, normalSeg s := by
  intro s hs
  have h1 := foldl_pushSeg_ne false X []
    (fun x hx => absurd hx (List.not_mem_nil x)) s
    (by
      unfold normRelSegs at hs
      exact List.mem_reverse.mp hs)
  refine ⟨h1.1, h1.2, ?_⟩
  intro he
  exact hno (he ▸ hs)

theorem normRel_append_dot (A : List Str) :
    normRelSegs (A ++ [pys "."]) = normRelSegs A := by
  unfold normRelSegs
  rw [List.foldl_append]
  simp [pushSeg]

theorem normRelSegs_append (A B : List Str) :
    normRelSegs (A ++ B) =
      (B.foldl (pushSeg false) ((normRelSegs A).reverse)).reverse := by
  unfold normRelSegs
  rw [List.foldl_append, List.reverse_reverse]

/-- The algebraic heart of C4: resolving `os.path.relpath(path, start)`
against a directory with the same normalization as `start` lands exactly on
the normalization of `path`, for any normalized working directory, as long
as neither normalized path escapes upward. -/
theorem relpath_resolves (cwd : List Str) (path start dir : Str)
    (hcwd : cwdOk cwd)
    (hP : pys ".." ∉ normRelSegs (splitSlash path))
    (hS : pys ".." ∉ normRelSegs (splitSlash start))
    (hdir : normRelSegs (splitSlash dir) = normRelSegs (splitSlash start)) :
    resolveAgainst dir (relpathCwd cwd path start) =
      normRelSegs (splitSlash path) := by
  have hpl : normAbsSegs (cwd ++ splitSlash path) =
      cwd ++ normRelSegs (splitSlash path) :=
    normAbs_cwd cwd _ hcwd hP
  have hsl : normAbsSegs (cwd ++ splitSlash start) =
      cwd ++ normRelSegs (splitSlash start) :=
    normAbs_cwd cwd _ hcwd hS
  have hjS := commonPrefixLen_le_left (normRelSegs (splitSlash start))
    (normRelSegs (splitSlash path))
  have hjP := commonPrefixLen_le_right (normRelSegs (splitSlash start))
    (normRelSegs (splitSlash path))
  have hlen : (cwd ++ normRelSegs (splitSlash start)).length -
      (cwd.length + commonPrefixLen (normRelSegs (splitSlash start))
        (normRelSegs (splitSlash path))) =
      (normRelSegs (splitSlash start)).length -
        commonPrefixLen (normRelSegs (splitSlash start))
          (normRelSegs (splitSlash path)) := by
    simp only [List.length_append]
    omega
  have hdrop : (cwd ++ normRelSegs (splitSlash path)).drop
      (cwd.length + commonPrefixLen (normRelSegs (splitSlash start))
        (normRelSegs (splitSlash path))) =
      (normRelSegs (splitSlash path)).drop
        (commonPrefixLen (normRelSegs (splitSlash start))
          (normRelSegs (splitSlash path))) := by
    rw [← List.drop_drop, List.drop_left]
  have hrc : relpathCwd cwd path start =
      (if List.replicate ((normRelSegs (splitSlash start)).length -
            commonPrefixLen (normRelSegs (splitSlash start))
              (normRelSegs (splitSlash path))) (pys "..") ++
          (normRelSegs (splitSlash path)).drop
            (commonPrefixLen (normRelSegs (splitSlash start))
              (normRelSegs (splitSlash path))) = []
       then pys "."
       else joinSlash (List.replicate
          ((normRelSegs (splitSlash start)).length -
            commonPrefixLen (normRelSegs (splitSlash start))
              (normRelSegs (splitSlash path))) (pys "..") ++
          (normRelSegs (splitSlash path)).drop
            (commonPrefixLen (normRelSegs (splitSlash start))
              (normRelSegs (splitSlash path))))) := by
    simp only [relpathCwd]
    rw [hpl, hsl, commonPrefixLen_append, hlen, hdrop]
  rw [hrc]
  have hSnorm := normRel_mem_normal (splitSlash start) hS
  have hPnorm := normRel_mem_normal (splitSlash path) hP
  by_cases hrel : List.replicate ((normRelSegs (splitSlash start)).length -
      commonPrefixLen (normRelSegs (splitSlash start))
        (normRelSegs (splitSlash path))) (pys "..") ++
      (normRelSegs (splitSlash path)).drop
        (commonPrefixLen (normRelSegs (splitSlash start))
          (normRelSegs (splitSlash path))) = []
  · rw [if_pos hrel]
    rcases List.append_eq_nil.mp hrel with ⟨h1, h2⟩
    have hS0 : (normRelSegs (splitSlash start)).length =
        commonPrefixLen (normRelSegs (splitSlash start))
          (normRelSegs (splitSlash path)) := by
      have hlr := congrArg List.length h1
      simp only [List.length_replicate, List.length_nil] at hlr
      omega
    have hP0 : (normRelSegs (splitSlash path)).length =
        commonPrefixLen (normRelSegs (splitSlash start))
          (normRelSegs (splitSlash path)) := by
      have hd := List.drop_eq_nil_iff.mp h2
      omega
    have hSP : normRelSegs (splitSlash start) =
        normRelSegs (splitSlash path) := by
      have ht := take_commonPrefixLen_eq (normRelSegs (splitSlash start))
        (normRelSegs (splitSlash path))
      rw [List.take_of_length_le (le_of_eq hS0),
        List.take_of_length_le (le_of_eq hP0)] at ht
      exact ht
    unfold resolveAgainst
    have hdot : splitSlash (pys ".") = [pys "."] := by decide
    rw [hdot, normRel_append_dot, hdir, hSP]
  · rw [if_neg hrel]
    unfold resolveAgainst
    have hrelem : ∀ x ∈ List.replicate
        ((normRelSegs (splitSlash start)).length -
          commonPrefixLen (normRelSegs (splitSlash start))
            (normRelSegs (splitSlash path))) (pys "..") ++
        (normRelSegs (splitSlash path)).drop
          (commonPrefixLen (normRelSegs (splitSlash start))
            (normRelSegs (splitSlash path))), '/' ∉ x := by
      intro x hx
      rcases List.mem_append.mp hx with hh | hh
      · rw [List.eq_of_mem_replicate hh]
        decide
      · have hmem : x ∈ normRelSegs (splitSlash path) :=
          List.mem_of_mem_drop hh
        exact splitSlash_mem_no_slash path x (normRel_mem_src _ x hmem)
    rw [splitSlash_joinSlash _ hrel hrelem]
    rw [normRelSegs_append (splitSlash dir) _, hdir, List.foldl_append]
    have hpop : (List.replicate ((normRelSegs (splitSlash start)).length -
        commonPrefixLen (normRelSegs (splitSlash start))
          (normRelSegs (splitSlash path))) (pys "..")).foldl
        (pushSeg false) (normRelSegs (splitSlash start)).reverse =
        (normRelSegs (splitSlash start)).reverse.drop
          ((normRelSegs (splitSlash start)).length -
            commonPrefixLen (normRelSegs (splitSlash start))
              (normRelSegs (splitSlash path))) := by
      refine foldl_pushSeg_drop _ _ ?_ ?_
      · intro s hs
        exact hSnorm s (List.mem_reverse.mp hs)
      · simp only [List.length_reverse]
        omega
    rw [hpop]
    have hpush := foldl_pushSeg_normal false
      ((normRelSegs (splitSlash path)).drop
        (commonPrefixLen (normRelSegs (splitSlash start))
          (normRelSegs (splitSlash path))))
      ((normRelSegs (splitSlash start)).reverse.drop
        ((normRelSegs (splitSlash start)).length -
          commonPrefixLen (normRelSegs (splitSlash start))
            (normRelSegs (splitSlash path))))
      (fun s hs => hPnorm s (List.mem_of_mem_drop hs))
    rw [hpush]
    have htake : (normRelSegs (splitSlash start)).reverse.drop
        ((normRelSegs (splitSlash start)).length -
          commonPrefixLen (normRelSegs (splitSlash start))
            (normRelSegs (splitSlash path))) =
        ((normRelSegs (splitSlash start)).take
          (commonPrefixLen (normRelSegs (splitSlash start))
            (normRelSegs (splitSlash path)))).reverse := by
      rw [List.reverse_take]
    rw [htake, take_commonPrefixLen_eq]
    rw [List.reverse_append, List.reverse_reverse, List.reverse_reverse,
      List.take_append_drop]

/-- **C4.** For every same-site absolute asset URL and every page base URL,
the relative path the HTML rewriter writes into the element's attribute
(`os.path.relpath(local, dirname(current) or ".")`), when resolved against
the directory of the page's derived local path, equals (as a normalized
path) the asset's own derived local path — the same path at which the
Asset Materializer writes the file under the output root.  Hypotheses: the
working directory is well formed; the asset's local path is nonempty
(Python's `relpath` raises on an empty path, and `ensure_local_path` of a
URL path is never empty); and neither normalized path climbs above the
output root (`..`-escaping assets are not "under the output root", so the
claim's own framing presupposes this). -/
theorem C4_rewrite_resolves_to_asset_path (cwd : List Str)
    (base_url asset_url root_host : Str)
    (hcwd : cwdOk cwd)
    (_hsite : is_same_site asset_url root_host = true)
    (_hne : download_asset_local asset_url ≠ [])
    (hP : pys ".." ∉
      normRelSegs (splitSlash (download_asset_local asset_url)))
    (hS : pys ".." ∉ normRelSegs (splitSlash
      (dirname (ensure_local_path (urlparse base_url []).path)))) :
    resolveAgainst (dirname (ensure_local_path (urlparse base_url []).path))
        (rewriteAttrRel cwd base_url asset_url) =
      normRelSegs (splitSlash (download_asset_local asset_url)) := by
  unfold download_asset_local at hP ⊢
  simp only [rewriteAttrRel]
  by_cases hd : dirname (ensure_local_path (urlparse base_url []).path) = []
  · rw [hd]
    rw [if_pos rfl]
    refine relpath_resolves cwd _ (pys ".") [] hcwd hP ?_ ?_
    · decide
    · decide
  · rw [if_neg hd]
    refine relpath_resolves cwd _ _ _ hcwd hP ?_ rfl
    exact hS

/-- Witness for C4 at a concrete page and asset: page
`http://example.com/a/b/index.html`, asset
`http://example.com/css/style.css`; the rewriter writes
`../../css/style.css`, which resolves back onto `css/style.css`. -/
theorem C4_rewrite_resolves_witness :
    (cwdOk [pys "srv"] ∧
     is_same_site (pys "http://example.com/css/style.css")
       (pys "example.com") = true ∧
     download_asset_local (pys "http://example.com/css/style.css") ≠ [] ∧
     pys ".." ∉ normRelSegs (splitSlash
       (download_asset_local (pys "http://example.com/css/style.css"))) ∧
     pys ".." ∉ normRelSegs (splitSlash (dirname (ensure_local_path
       (urlparse (pys "http://example.com/a/b/index.html") []).path)))) ∧
    rewriteAttrRel [pys "srv"] (pys "http://example.com/a/b/index.html")
        (pys "http://example.com/css/style.css") =
      pys "../../css/style.css" ∧
    resolveAgainst
        (dirname (ensure_local_path
          (urlparse (pys "http://example.com/a/b/index.html") []).path))
        (rewriteAttrRel [pys "srv"]
          (pys "http://example.com/a/b/index.html")
          (pys "http://example.com/css/style.css")) =
      normRelSegs (splitSlash
        (download_asset_local (pys "http://example.com/css/style.css"))) := by
  refine ⟨⟨?_, ?_, ?_, ?_, ?_⟩, ?_, ?_⟩
  · intro s hs
    simp only [List.mem_singleton] at hs
    subst hs
    exact ⟨by decide, by decide, by decide⟩
  · decide
  · decide
  · decide
  · decide
  · decide
  · exact C4_rewrite_resolves_to_asset_path [pys "srv"]
      (pys "http://example.com/a/b/index.html")
      (pys "http://example.com/css/style.css") (pys "example.com")
      (by
        intro s hs
        simp only [List.mem_singleton] at hs
        subst hs
        exact ⟨by decide, by decide, by decide⟩)
      (by decide) (by decide) (by decide) (by decide)

end Wayback
